import Mathlib

/-!
Verification development for the Firestore schema-inference and
schema-linting scripts (`scripts/inferSchema.js`,
`scripts/lintCollectionSchema.js`).

The dynamic JS values that can appear in a Firestore document are
embedded as the inductive `Value`; JS numbers are modelled as exact
rationals (`ℚ`), with `Number.isInteger` becoming "denominator = 1".
JS `Map`s and plain objects are modelled as insertion-ordered
association lists with `Map.get`/`Map.set` semantics (`getProp`/`setProp`).
-/

namespace FirebaseAdminUtils

/-- The closed kind enumeration produced by `detectKind`. -/
inductive Kind where
  | null
  | boolean
  | number
  | string
  | timestamp
  | geopoint
  | reference
  | bytes
  | array
  | object
  | unknown
deriving DecidableEq, Repr

/-- The string name of each kind, as used in the JS report objects. -/
def kindName : Kind → String
  | .null => "null"
  | .boolean => "boolean"
  | .number => "number"
  | .string => "string"
  | .timestamp => "timestamp"
  | .geopoint => "geopoint"
  | .reference => "reference"
  | .bytes => "bytes"
  | .array => "array"
  | .object => "object"
  | .unknown => "unknown"

/-- A Firestore-document value as seen by the scripts.  `vnum` carries an
exact rational standing for the JS number; `vother` stands for any value
of none of the recognized runtime types (e.g. a function). Timestamp /
geopoint / reference / bytes payloads are irrelevant to every claim and
are not carried. -/
inductive Value where
  | vnull
  | vbool (b : Bool)
  | vnum (q : ℚ)
  | vstr (s : String)
  | vtimestamp
  | vgeopoint
  | vreference
  | vbytes
  | varr (elems : List Value)
  | vobj (entries : List (String × Value))
  | vother

/-- `detectKind` from `inferSchema.js` lines 27-40 (identical copy in
`lintCollectionSchema.js` lines 50-63).  The JS checks run in order:
null, Timestamp, GeoPoint, DocumentReference, bytes, array, string,
boolean, number, plain object, else unknown; on the disjoint
constructors of `Value` this is the following total match. -/
def detectKind : Value → Kind
  | .vnull => .null
  | .vtimestamp => .timestamp
  | .vgeopoint => .geopoint
  | .vreference => .reference
  | .vbytes => .bytes
  | .varr _ => .array
  | .vstr _ => .string
  | .vbool _ => .boolean
  | .vnum _ => .number
  | .vobj _ => .object
  | .vother => .unknown

/-- JS `Number.isInteger` on the rational model. -/
def isIntegerNum (q : ℚ) : Bool := q.den == 1

/-! ### Association-list model of JS `Map` / plain-object stores -/

/-- `Map.get` / first-match lookup. -/
def getProp {κ α : Type} [DecidableEq κ] : List (κ × α) → κ → Option α
  | [], _ => none
  | (k', x) :: rest, k => if k' = k then some x else getProp rest k

/-- `Map.set`: replace the value at the first occurrence of the key
(keeping its position), else append at the end. -/
def setProp {κ α : Type} [DecidableEq κ] : List (κ × α) → κ → α → List (κ × α)
  | [], k, x => [(k, x)]
  | (k', y) :: rest, k, x =>
      if k' = k then (k, x) :: rest else (k', y) :: setProp rest k x

/-! ### Aggregate model (`inferSchema.js` lines 41-54) -/

mutual
/-- `makeFieldAgg()`-shaped record: `{ presentCount, variants }`. -/
inductive FieldAgg : Type where
  | mk (presentCount : Nat) (variants : List Variant)

/-- One variant entry `{ kind, count, object?, array?, number? }`;
the `number` sub-record is represented by its only field `integerOnly`. -/
inductive Variant : Type where
  | mk (kind : Kind) (count : Nat) (objectAgg : Option ObjectAgg)
       (arrayAgg : Option ArrayAgg) (integerOnly : Option Bool)

/-- `makeObjectAgg()`-shaped record: `{ totalSeen, properties }`. -/
inductive ObjectAgg : Type where
  | mk (totalSeen : Nat) (properties : List (String × FieldAgg))

/-- `makeArrayAgg()`-shaped record: `{ totalSeen, emptyCount, items }`. -/
inductive ArrayAgg : Type where
  | mk (totalSeen : Nat) (emptyCount : Nat) (items : Option FieldAgg)
end

def FieldAgg.presentCount : FieldAgg → Nat
  | .mk n _ => n

def FieldAgg.variants : FieldAgg → List Variant
  | .mk _ vs => vs

def Variant.kind : Variant → Kind
  | .mk k _ _ _ _ => k

def Variant.count : Variant → Nat
  | .mk _ c _ _ _ => c

def Variant.objectAgg : Variant → Option ObjectAgg
  | .mk _ _ o _ _ => o

def Variant.arrayAgg : Variant → Option ArrayAgg
  | .mk _ _ _ a _ => a

def Variant.integerOnly : Variant → Option Bool
  | .mk _ _ _ _ n => n

def ObjectAgg.totalSeen : ObjectAgg → Nat
  | .mk t _ => t

def ObjectAgg.properties : ObjectAgg → List (String × FieldAgg)
  | .mk _ ps => ps

def ArrayAgg.totalSeen : ArrayAgg → Nat
  | .mk t _ _ => t

def ArrayAgg.emptyCount : ArrayAgg → Nat
  | .mk _ e _ => e

def ArrayAgg.items : ArrayAgg → Option FieldAgg
  | .mk _ _ i => i

/-- `makeFieldAgg()`. -/
def makeFieldAgg : FieldAgg := .mk 0 []

/-- `makeObjectAgg()`. -/
def makeObjectAgg : ObjectAgg := .mk 0 []

/-- `makeArrayAgg()`. -/
def makeArrayAgg : ArrayAgg := .mk 0 0 none

/-- The fresh variant created by `getOrCreateVariant` for a kind. -/
def makeVariant (k : Kind) : Variant :=
  .mk k 0 (if k = .object then some makeObjectAgg else none)
    (if k = .array then some makeArrayAgg else none)
    (if k = .number then some true else none)

/-! ### The sampler (`addValueSample` / `addObjectSample`,
`inferSchema.js` lines 55-95) -/

/-- `oa.totalSeen++` on an object aggregate. -/
def bumpTotal (oa : ObjectAgg) : ObjectAgg :=
  .mk (oa.totalSeen + 1) oa.properties

mutual
/-- `addValueSample(fieldAgg, value)`: `presentCount++`, then bump (or
create) the variant for `detectKind value` and update its payload. -/
def addValueSample : FieldAgg → Value → FieldAgg
  | .mk pc vars, v => .mk (pc + 1) (addToVariants vars (detectKind v) v)
termination_by fa v => (sizeOf v, 3, 0)

/-- `getOrCreateVariant` followed by `variant.count++` and the
kind-specific `switch` body, acting on the variants list. -/
def addToVariants : List Variant → Kind → Value → List Variant
  | [], k, v => [updateVariant (makeVariant k) v]
  | w :: rest, k, v =>
      if w.kind = k then updateVariant w v :: rest
      else w :: addToVariants rest k v
termination_by vs k v => (sizeOf v, 2, sizeOf vs)

/-- `variant.count++` plus the `switch (kind)` body of `addValueSample`. -/
def updateVariant : Variant → Value → Variant
  | .mk k c oOpt aOpt nOpt, .vobj entries =>
      .mk k (c + 1)
        (some (addObjEntries (bumpTotal (oOpt.getD makeObjectAgg)) entries))
        aOpt nOpt
  | .mk k c oOpt aOpt nOpt, .varr elems =>
      let aa := aOpt.getD makeArrayAgg
      if elems.isEmpty then
        .mk k (c + 1) oOpt
          (some (.mk (aa.totalSeen + 1) (aa.emptyCount + 1) aa.items)) nOpt
      else
        .mk k (c + 1) oOpt
          (some (.mk (aa.totalSeen + 1) aa.emptyCount
            (some (addElems (aa.items.getD makeFieldAgg) elems)))) nOpt
  | .mk k c oOpt aOpt nOpt, .vnum q =>
      .mk k (c + 1) oOpt aOpt (some ((nOpt.getD true) && isIntegerNum q))
  | .mk k c oOpt aOpt nOpt, _ => .mk k (c + 1) oOpt aOpt nOpt
termination_by w v => (sizeOf v, 1, 0)

/-- The `for (const [k, v] of Object.entries(value))` loop shared by the
object case of `addValueSample` and by `addObjectSample`. -/
def addObjEntries : ObjectAgg → List (String × Value) → ObjectAgg
  | oa, [] => oa
  | .mk ts props, (key, v) :: rest =>
      addObjEntries
        (.mk ts (setProp props key
          (addValueSample ((getProp props key).getD makeFieldAgg) v))) rest
termination_by oa entries => (sizeOf entries, 0, 0)

/-- The `for (const el of value) addValueSample(aa.items, el)` loop. -/
def addElems : FieldAgg → List Value → FieldAgg
  | fa, [] => fa
  | fa, e :: rest => addElems (addValueSample fa e) rest
termination_by fa elems => (sizeOf elems, 0, 0)
end

/-- `addObjectSample(objAgg, obj)`: `totalSeen++` then fold all entries. -/
def addObjectSample (oa : ObjectAgg) (entries : List (String × Value)) : ObjectAgg :=
  addObjEntries (.mk (oa.totalSeen + 1) oa.properties) entries

/-! ### Dictionary heuristic (`maybeAsMap`, `inferSchema.js` lines 98-112) -/

/-- The `fa.variants.length !== 1` and scalar-kind checks of the
`maybeAsMap` loop for one property. -/
def singleScalarKind (fa : FieldAgg) : Option Kind :=
  match fa.variants with
  | [v] =>
      if v.kind = .boolean ∨ v.kind = .string ∨ v.kind = .number then some v.kind
      else none
  | _ => none

/-- `maybeAsMap(objAgg)`: `none` stands for the JS `null` result. -/
def maybeAsMap (oa : ObjectAgg) : Option Kind :=
  if oa.properties.isEmpty then none
  else if oa.properties.any (fun p => p.2.presentCount == oa.totalSeen) then none
  else
    match oa.properties.mapM (fun p => singleScalarKind p.2) with
    | none => none
    | some [] => none
    | some (first :: rest) => if rest.all (· == first) then some first else none

/-! ### Field summary (`inferSchema.js` lines 115-173) -/

/-- `friendlyTypeName(variant)`. -/
def friendlyTypeName (v : Variant) : String :=
  match v.kind with
  | .number => if v.integerOnly.getD true then "integer" else "number"
  | .timestamp => "timestamp"
  | .reference => "documentReference"
  | .bytes => "bytes(base64)"
  | .geopoint => "geopoint"
  | k => kindName k

/-- The JS summary objects returned by `summarizeField` /
`profileFromAgg`, with one optional slot per key that any branch can
set; `none` models an absent key. -/
inductive Summary : Type where
  | mk (type : String) (format : Option String) (union : Option (List String))
       (required : Option Bool) (nullable : Option Bool) (items : Option Summary)
       (requiredFields : Option (List String))
       (fields : Option (List (String × Summary)))

def Summary.type : Summary → String
  | .mk t _ _ _ _ _ _ _ => t

def Summary.format : Summary → Option String
  | .mk _ f _ _ _ _ _ _ => f

def Summary.union : Summary → Option (List String)
  | .mk _ _ u _ _ _ _ _ => u

def Summary.required : Summary → Option Bool
  | .mk _ _ _ r _ _ _ _ => r

def Summary.nullable : Summary → Option Bool
  | .mk _ _ _ _ n _ _ _ => n

def Summary.items : Summary → Option Summary
  | .mk _ _ _ _ _ i _ _ => i

def Summary.requiredFields : Summary → Option (List String)
  | .mk _ _ _ _ _ _ rf _ => rf

def Summary.fields : Summary → Option (List (String × Summary))
  | .mk _ _ _ _ _ _ _ fs => fs

/-- A summary with only `type`/`required`/`nullable` set. -/
def Summary.plain (t : String) (req isNul : Bool) : Summary :=
  .mk t none none (some req) (some isNul) none none none

/-- The `{ type: "any" }` items placeholder. -/
def Summary.anyNode : Summary :=
  .mk "any" none none none none none none none

/-- JS `Array.prototype.sort()` on strings (lexicographic). -/
def jsSortStrings (l : List String) : List String :=
  l.mergeSort

theorem sizeOf_objectAgg_lt {v : Variant} {oa : ObjectAgg}
    (h : v.objectAgg = some oa) : sizeOf oa < sizeOf v := by
  cases v with
  | mk k c o a n =>
    cases o with
    | none => simp [Variant.objectAgg] at h
    | some x =>
        simp [Variant.objectAgg] at h
        subst h
        simp
        omega

theorem sizeOf_arrayAgg_lt {v : Variant} {aa : ArrayAgg}
    (h : v.arrayAgg = some aa) : sizeOf aa < sizeOf v := by
  cases v with
  | mk k c o a n =>
    cases a with
    | none => simp [Variant.arrayAgg] at h
    | some x =>
        simp [Variant.arrayAgg] at h
        subst h
        simp
        omega

theorem sizeOf_items_lt {aa : ArrayAgg} {it : FieldAgg}
    (h : aa.items = some it) : sizeOf it < sizeOf aa := by
  cases aa with
  | mk t e i =>
    cases i with
    | none => simp [ArrayAgg.items] at h
    | some x =>
        simp [ArrayAgg.items] at h
        subst h
        simp
        omega

theorem sizeOf_properties_lt (oa : ObjectAgg) :
    sizeOf oa.properties < sizeOf oa := by
  cases oa with
  | mk t ps => simp [ObjectAgg.properties]; try omega

mutual
/-- `summarizeField(fa, parentTotalSeen)` (`inferSchema.js` lines
125-164).  The `v.object` / `v.array` accesses that the JS performs
without a guard are totalized: a structurally impossible missing
payload yields the `unknown` summary (object case) or the `any` items
node (array case). -/
def summarizeField : FieldAgg → Nat → Summary
  | .mk pc vars, parentTotalSeen =>
    let isNullable := vars.any (fun v => v.kind == .null)
    let required : Bool := pc == parentTotalSeen
    match h : vars.filter (fun v => !(v.kind == .null)) with
    | [] => .mk "unknown" none none (some required) (some true) none none none
    | v :: v2 :: rest =>
        .mk "union" none
          (some (jsSortStrings ((v :: v2 :: rest).map friendlyTypeName)))
          (some required) (some isNullable) none none none
    | [v] =>
      match v.kind with
      | .string => Summary.plain "string" required isNullable
      | .boolean => Summary.plain "boolean" required isNullable
      | .number =>
          Summary.plain (if v.integerOnly.getD true then "integer" else "number")
            required isNullable
      | .timestamp =>
          .mk "timestamp" (some "RFC3339") none (some required) (some isNullable)
            none none none
      | .reference => Summary.plain "documentReference" required isNullable
      | .bytes => Summary.plain "bytes(base64)" required isNullable
      | .geopoint =>
          Summary.plain "geopoint{latitude:number, longitude:number}" required isNullable
      | .array =>
          let itemsSummary : Summary :=
            match h2 : v.arrayAgg with
            | some aa =>
                match h3 : aa.items with
                | some it =>
                    summarizeField it
                      (if it.presentCount == 0 then 1 else it.presentCount)
                | none => Summary.anyNode
            | none => Summary.anyNode
          .mk "array" none none (some required) (some isNullable)
            (some itemsSummary) none none
      | .object =>
          match h2 : v.objectAgg with
          | some oa =>
              match maybeAsMap oa with
              | some mapKind =>
                  Summary.plain ("map<string, " ++ kindName mapKind ++ ">")
                    required isNullable
              | none =>
                  let fields := summarizeProps oa.properties oa.totalSeen
                  let req := (oa.properties.filter
                    (fun p => p.2.presentCount == oa.totalSeen)).map (fun p => p.1)
                  .mk "object" none none (some required) (some isNullable) none
                    (if req.isEmpty then none else some req) (some fields)
          | none => .mk "unknown" none none (some required) (some isNullable) none none none
      | _ => .mk "unknown" none none (some required) (some isNullable) none none none
termination_by fa t => sizeOf fa
decreasing_by
  · have hv : v ∈ vars := List.mem_of_mem_filter (h ▸ List.mem_singleton_self v)
    have h1 : sizeOf v < sizeOf vars := List.sizeOf_lt_of_mem hv
    have h2' : sizeOf aa < sizeOf v := sizeOf_arrayAgg_lt h2
    have h3' : sizeOf it < sizeOf aa := sizeOf_items_lt h3
    simp
    try omega
  · have hv : v ∈ vars := List.mem_of_mem_filter (h ▸ List.mem_singleton_self v)
    have h1 : sizeOf v < sizeOf vars := List.sizeOf_lt_of_mem hv
    have h2' : sizeOf oa < sizeOf v := sizeOf_objectAgg_lt h2
    have h3' : sizeOf oa.properties < sizeOf oa := sizeOf_properties_lt oa
    simp
    try omega

/-- The per-property loop of the object branch of `summarizeField` and
of `profileFromAgg`. -/
def summarizeProps : List (String × FieldAgg) → Nat → List (String × Summary)
  | [], _ => []
  | (k, fa) :: rest, total =>
      (k, summarizeField fa total) :: summarizeProps rest total
termination_by l _ => sizeOf l
decreasing_by
  all_goals simp
  all_goals try omega
end

/-- The `document` part of `profileFromAgg(collectionPath, agg)`
(`inferSchema.js` lines 165-173); the constant `collection` passthrough
is dropped. -/
structure Profile where
  requiredFields : Option (List String)
  fields : List (String × Summary)

def profileFromAgg (agg : ObjectAgg) : Profile :=
  let fields := summarizeProps agg.properties agg.totalSeen
  let required := (agg.properties.filter
    (fun p => p.2.presentCount == agg.totalSeen)).map (fun p => p.1)
  ⟨if required.isEmpty then none else some required, fields⟩

/-! ### Canonical observation trees and the merge operation

Modelled from the spec: the spec postulates a merge operation under
which the aggregates form a commutative monoid — "merging two
aggregates built from disjoint document partitions yields the same
result, field-for-field, as folding the concatenation" with, per field
path, `presentCount` and per-kind `count` adding and `integerOnly`
AND-ing.  The source has no merge function, so it is modelled here, on
canonical observation trees: `NField` records exactly the per-field-path
observations the spec's monoid law speaks about (presentCount, the
per-kind variant counts, the integerOnly flag, and the nested object /
array observations keyed by field name, keys held in a canonical
sorted-by-key association list). -/

mutual
/-- Canonical observations of one `FieldAgg`. -/
inductive NField : Type where
  | mk (pc : Nat) (counts : Kind → Nat) (intOnly : Bool)
       (obj : Option NObj) (arr : Option NArr)

/-- Canonical observations of one `ObjectAgg`. -/
inductive NObj : Type where
  | mk (totalSeen : Nat) (props : List (String × NField))

/-- Canonical observations of one `ArrayAgg`. -/
inductive NArr : Type where
  | mk (totalSeen : Nat) (emptyCount : Nat) (items : Option NField)
end

/-- The empty field observation (identity of the merge). -/
def zeroNF : NField := .mk 0 (fun _ => 0) true none none

mutual
/-- Modelled from the spec: merge of two field observations —
`presentCount` and per-kind counts add, `integerOnly` flags AND,
sub-aggregates merge recursively. -/
def addNF : NField → NField → NField
  | .mk pc1 c1 i1 o1 a1, .mk pc2 c2 i2 o2 a2 =>
      .mk (pc1 + pc2) (fun k => c1 k + c2 k) (i1 && i2)
        (addNOOpt o1 o2) (addNAOpt a1 a2)
termination_by x y => sizeOf x + sizeOf y

def addNOOpt : Option NObj → Option NObj → Option NObj
  | none, b => b
  | some a, none => some a
  | some a, some b => some (addNO a b)
termination_by x y => sizeOf x + sizeOf y

/-- Merge of object observations: `totalSeen` adds, properties merge
keywise. -/
def addNO : NObj → NObj → NObj
  | .mk t1 p1, .mk t2 p2 => .mk (t1 + t2) (unionAdd p1 p2)
termination_by x y => sizeOf x + sizeOf y

/-- Keywise merge of two sorted-by-key property lists. -/
def unionAdd : List (String × NField) → List (String × NField) →
    List (String × NField)
  | [], l2 => l2
  | l1, [] => l1
  | (k1, x) :: l1, (k2, y) :: l2 =>
      if k1 < k2 then (k1, x) :: unionAdd l1 ((k2, y) :: l2)
      else if k2 < k1 then (k2, y) :: unionAdd ((k1, x) :: l1) l2
      else (k1, addNF x y) :: unionAdd l1 l2
termination_by l1 l2 => sizeOf l1 + sizeOf l2

def addNAOpt : Option NArr → Option NArr → Option NArr
  | none, b => b
  | some a, none => some a
  | some a, some b => some (addNA a b)
termination_by x y => sizeOf x + sizeOf y

/-- Merge of array observations: counters add, items merge. -/
def addNA : NArr → NArr → NArr
  | .mk t1 e1 i1, .mk t2 e2 i2 => .mk (t1 + t2) (e1 + e2) (addNFOpt i1 i2)
termination_by x y => sizeOf x + sizeOf y

def addNFOpt : Option NField → Option NField → Option NField
  | none, b => b
  | some a, none => some a
  | some a, some b => some (addNF a b)
termination_by x y => sizeOf x + sizeOf y
end

/-! #### Monoid structure of the merge -/

theorem addNOOpt_none_right (o : Option NObj) : addNOOpt o none = o := by
  cases o <;> simp [addNOOpt]

theorem addNAOpt_none_right (o : Option NArr) : addNAOpt o none = o := by
  cases o <;> simp [addNAOpt]

theorem addNFOpt_none_right (o : Option NField) : addNFOpt o none = o := by
  cases o <;> simp [addNFOpt]

theorem addNF_zero_left (x : NField) : addNF zeroNF x = x := by
  cases x with
  | mk pc c i o a => simp [addNF, zeroNF, addNOOpt, addNAOpt]

theorem addNF_zero_right (x : NField) : addNF x zeroNF = x := by
  cases x with
  | mk pc c i o a =>
      simp [addNF, zeroNF, addNOOpt_none_right, addNAOpt_none_right]

theorem unionAdd_nil_left (l : List (String × NField)) : unionAdd [] l = l := by
  simp [unionAdd]

theorem unionAdd_nil_right (l : List (String × NField)) : unionAdd l [] = l := by
  cases l <;> simp [unionAdd]

theorem unionAdd_cons_lt {a b : String} (h : a < b) (x y : NField)
    (t1 t2 : List (String × NField)) :
    unionAdd ((a, x) :: t1) ((b, y) :: t2)
      = (a, x) :: unionAdd t1 ((b, y) :: t2) := by
  simp [unionAdd, h]

theorem unionAdd_cons_gt {a b : String} (h : b < a) (x y : NField)
    (t1 t2 : List (String × NField)) :
    unionAdd ((a, x) :: t1) ((b, y) :: t2)
      = (b, y) :: unionAdd ((a, x) :: t1) t2 := by
  have h2 : ¬ a < b := lt_asymm h
  simp [unionAdd, h, h2]

theorem unionAdd_cons_eq {a b : String} (h : a = b) (x y : NField)
    (t1 t2 : List (String × NField)) :
    unionAdd ((a, x) :: t1) ((b, y) :: t2)
      = (a, addNF x y) :: unionAdd t1 t2 := by
  subst h
  simp [unionAdd]

/-- Shape of a merge of two nonempty lists: the head is one of the two
input heads. -/
theorem unionAdd_cons_cons_shape (b : String) (y : NField) (t2 : List (String × NField))
    (c : String) (z : NField) (t3 : List (String × NField)) :
    ∃ d w rest, unionAdd ((b, y) :: t2) ((c, z) :: t3) = (d, w) :: rest ∧
      (d = b ∨ d = c) := by
  rcases lt_trichotomy b c with hbc | hbc | hbc
  · exact ⟨b, y, _, unionAdd_cons_lt hbc y z t2 t3, Or.inl rfl⟩
  · exact ⟨b, addNF y z, _, unionAdd_cons_eq hbc y z t2 t3, Or.inl rfl⟩
  · exact ⟨c, z, _, unionAdd_cons_gt hbc y z t2 t3, Or.inr rfl⟩

mutual
theorem addNF_assoc (x y z : NField) :
    addNF (addNF x y) z = addNF x (addNF y z) := by
  cases x with
  | mk pc1 c1 i1 o1 a1 =>
  cases y with
  | mk pc2 c2 i2 o2 a2 =>
  cases z with
  | mk pc3 c3 i3 o3 a3 =>
  simp only [addNF, NField.mk.injEq]
  exact ⟨Nat.add_assoc pc1 pc2 pc3, funext fun k => Nat.add_assoc _ _ _,
    Bool.and_assoc i1 i2 i3, addNOOpt_assoc o1 o2 o3, addNAOpt_assoc a1 a2 a3⟩
termination_by sizeOf x + sizeOf y + sizeOf z

theorem addNOOpt_assoc (x y z : Option NObj) :
    addNOOpt (addNOOpt x y) z = addNOOpt x (addNOOpt y z) := by
  cases x with
  | none => simp [addNOOpt]
  | some a =>
    cases y with
    | none => simp [addNOOpt]
    | some b =>
      cases z with
      | none => simp [addNOOpt]
      | some c => simp only [addNOOpt, Option.some.injEq]; exact addNO_assoc a b c
termination_by sizeOf x + sizeOf y + sizeOf z

theorem addNO_assoc (x y z : NObj) :
    addNO (addNO x y) z = addNO x (addNO y z) := by
  cases x with
  | mk t1 p1 =>
  cases y with
  | mk t2 p2 =>
  cases z with
  | mk t3 p3 =>
  simp only [addNO, NObj.mk.injEq]
  exact ⟨Nat.add_assoc t1 t2 t3, unionAdd_assoc p1 p2 p3⟩
termination_by sizeOf x + sizeOf y + sizeOf z

theorem unionAdd_assoc (l1 l2 l3 : List (String × NField)) :
    unionAdd (unionAdd l1 l2) l3 = unionAdd l1 (unionAdd l2 l3) := by
  cases l1 with
  | nil => simp [unionAdd_nil_left]
  | cons h1 t1 =>
  cases l2 with
  | nil => simp [unionAdd_nil_left, unionAdd_nil_right]
  | cons h2 t2 =>
  cases l3 with
  | nil => simp [unionAdd_nil_right]
  | cons h3 t3 =>
  obtain ⟨a, x⟩ := h1
  obtain ⟨b, y⟩ := h2
  obtain ⟨c, z⟩ := h3
  rcases lt_trichotomy a b with hab | hab | hab
  · rw [unionAdd_cons_lt hab]
    rcases lt_trichotomy a c with hac | hac | hac
    · obtain ⟨d, w, rest, hu, hd⟩ := unionAdd_cons_cons_shape b y t2 c z t3
      have had : a < d := by
        rcases hd with hd | hd
        · rw [hd]; exact hab
        · rw [hd]; exact hac
      rw [unionAdd_cons_lt hac, unionAdd_assoc t1 ((b, y) :: t2) ((c, z) :: t3),
        hu, unionAdd_cons_lt had]
    · have hcb : c < b := by rw [← hac]; exact hab
      rw [unionAdd_cons_eq hac, unionAdd_cons_gt hcb,
        unionAdd_assoc t1 ((b, y) :: t2) t3, unionAdd_cons_eq hac]
    · have hcb : c < b := lt_trans hac hab
      rw [unionAdd_cons_gt hac, unionAdd_cons_gt hcb, ← unionAdd_cons_lt hab,
        unionAdd_assoc ((a, x) :: t1) ((b, y) :: t2) t3, unionAdd_cons_gt hac]
  · subst hab
    rw [unionAdd_cons_eq rfl]
    rcases lt_trichotomy a c with hac | hac | hac
    · rw [unionAdd_cons_lt hac, unionAdd_cons_lt hac,
        unionAdd_assoc t1 t2 ((c, z) :: t3), unionAdd_cons_eq rfl]
    · rw [unionAdd_cons_eq hac, unionAdd_cons_eq hac,
        unionAdd_assoc t1 t2 t3, unionAdd_cons_eq rfl, addNF_assoc x y z]
    · rw [unionAdd_cons_gt hac, unionAdd_cons_gt hac, ← unionAdd_cons_eq rfl,
        unionAdd_assoc ((a, x) :: t1) ((a, y) :: t2) t3, unionAdd_cons_gt hac]
  · rw [unionAdd_cons_gt hab]
    rcases lt_trichotomy b c with hbc | hbc | hbc
    · rw [unionAdd_cons_lt hbc, unionAdd_cons_lt hbc,
        unionAdd_assoc ((a, x) :: t1) t2 ((c, z) :: t3), unionAdd_cons_gt hab]
    · rw [unionAdd_cons_eq hbc, unionAdd_cons_eq hbc,
        unionAdd_assoc ((a, x) :: t1) t2 t3, unionAdd_cons_gt hab]
    · have hca : c < a := lt_trans hbc hab
      rw [unionAdd_cons_gt hbc, ← unionAdd_cons_gt hab,
        unionAdd_assoc ((a, x) :: t1) ((b, y) :: t2) t3, unionAdd_cons_gt hbc,
        unionAdd_cons_gt hca]
termination_by sizeOf l1 + sizeOf l2 + sizeOf l3

theorem addNAOpt_assoc (x y z : Option NArr) :
    addNAOpt (addNAOpt x y) z = addNAOpt x (addNAOpt y z) := by
  cases x with
  | none => simp [addNAOpt]
  | some a =>
    cases y with
    | none => simp [addNAOpt]
    | some b =>
      cases z with
      | none => simp [addNAOpt]
      | some c => simp only [addNAOpt, Option.some.injEq]; exact addNA_assoc a b c
termination_by sizeOf x + sizeOf y + sizeOf z

theorem addNA_assoc (x y z : NArr) :
    addNA (addNA x y) z = addNA x (addNA y z) := by
  cases x with
  | mk t1 e1 i1 =>
  cases y with
  | mk t2 e2 i2 =>
  cases z with
  | mk t3 e3 i3 =>
  simp only [addNA, NArr.mk.injEq]
  exact ⟨Nat.add_assoc t1 t2 t3, Nat.add_assoc e1 e2 e3, addNFOpt_assoc i1 i2 i3⟩
termination_by sizeOf x + sizeOf y + sizeOf z

theorem addNFOpt_assoc (x y z : Option NField) :
    addNFOpt (addNFOpt x y) z = addNFOpt x (addNFOpt y z) := by
  cases x with
  | none => simp [addNFOpt]
  | some a =>
    cases y with
    | none => simp [addNFOpt]
    | some b =>
      cases z with
      | none => simp [addNFOpt]
      | some c => simp only [addNFOpt, Option.some.injEq]; exact addNF_assoc a b c
termination_by sizeOf x + sizeOf y + sizeOf z
end

mutual
theorem addNF_comm (x y : NField) : addNF x y = addNF y x := by
  cases x with
  | mk pc1 c1 i1 o1 a1 =>
  cases y with
  | mk pc2 c2 i2 o2 a2 =>
  simp only [addNF, NField.mk.injEq]
  exact ⟨Nat.add_comm pc1 pc2, funext fun k => Nat.add_comm _ _,
    Bool.and_comm i1 i2, addNOOpt_comm o1 o2, addNAOpt_comm a1 a2⟩
termination_by sizeOf x + sizeOf y

theorem addNOOpt_comm (x y : Option NObj) : addNOOpt x y = addNOOpt y x := by
  cases x with
  | none => cases y <;> simp [addNOOpt]
  | some a =>
    cases y with
    | none => simp [addNOOpt]
    | some b => simp only [addNOOpt, Option.some.injEq]; exact addNO_comm a b
termination_by sizeOf x + sizeOf y

theorem addNO_comm (x y : NObj) : addNO x y = addNO y x := by
  cases x with
  | mk t1 p1 =>
  cases y with
  | mk t2 p2 =>
  simp only [addNO, NObj.mk.injEq]
  exact ⟨Nat.add_comm t1 t2, unionAdd_comm p1 p2⟩
termination_by sizeOf x + sizeOf y

theorem unionAdd_comm (l1 l2 : List (String × NField)) :
    unionAdd l1 l2 = unionAdd l2 l1 := by
  cases l1 with
  | nil => simp [unionAdd_nil_left, unionAdd_nil_right]
  | cons h1 t1 =>
  cases l2 with
  | nil => simp [unionAdd_nil_left, unionAdd_nil_right]
  | cons h2 t2 =>
  obtain ⟨a, x⟩ := h1
  obtain ⟨b, y⟩ := h2
  rcases lt_trichotomy a b with hab | hab | hab
  · rw [unionAdd_cons_lt hab, unionAdd_cons_gt hab,
      unionAdd_comm t1 ((b, y) :: t2)]
  · rw [unionAdd_cons_eq hab, unionAdd_cons_eq hab.symm,
      unionAdd_comm t1 t2, addNF_comm x y, hab]
  · rw [unionAdd_cons_gt hab, unionAdd_cons_lt hab,
      unionAdd_comm ((a, x) :: t1) t2]
termination_by sizeOf l1 + sizeOf l2

theorem addNAOpt_comm (x y : Option NArr) : addNAOpt x y = addNAOpt y x := by
  cases x with
  | none => cases y <;> simp [addNAOpt]
  | some a =>
    cases y with
    | none => simp [addNAOpt]
    | some b => simp only [addNAOpt, Option.some.injEq]; exact addNA_comm a b
termination_by sizeOf x + sizeOf y

theorem addNA_comm (x y : NArr) : addNA x y = addNA y x := by
  cases x with
  | mk t1 e1 i1 =>
  cases y with
  | mk t2 e2 i2 =>
  simp only [addNA, NArr.mk.injEq]
  exact ⟨Nat.add_comm t1 t2, Nat.add_comm e1 e2, addNFOpt_comm i1 i2⟩
termination_by sizeOf x + sizeOf y

theorem addNFOpt_comm (x y : Option NField) : addNFOpt x y = addNFOpt y x := by
  cases x with
  | none => cases y <;> simp [addNFOpt]
  | some a =>
    cases y with
    | none => simp [addNFOpt]
    | some b => simp only [addNFOpt, Option.some.injEq]; exact addNF_comm a b
termination_by sizeOf x + sizeOf y
end

/-! #### Normalization: computing the observations of an aggregate -/

/-- Replace the `presentCount` component of a field observation. -/
def NField.withPC (pc : Nat) : NField → NField
  | .mk _ c i o a => .mk pc c i o a

mutual
/-- The observations of a `FieldAgg`: its presentCount together with the
merged observations of its variants. -/
def normF : FieldAgg → NField
  | .mk pc vars => NField.withPC pc (normVariants vars)
termination_by fa => sizeOf fa

def normVariants : List Variant → NField
  | [] => zeroNF
  | v :: rest => addNF (normVariant v) (normVariants rest)
termination_by vs => sizeOf vs

/-- The observations contributed by one variant entry: its count at its
kind, its integerOnly flag when it is the number variant, and the
observations of its nested object / array aggregate. -/
def normVariant : Variant → NField
  | .mk k c o a n =>
      .mk 0 (fun j => if j = k then c else 0)
        (if k = .number then n.getD true else true)
        (match o with
         | some oa => some (normO oa)
         | none => none)
        (match a with
         | some aa => some (normA aa)
         | none => none)
termination_by v => sizeOf v

def normO : ObjectAgg → NObj
  | .mk ts props => .mk ts (normProps props)
termination_by oa => sizeOf oa

def normProps : List (String × FieldAgg) → List (String × NField)
  | [] => []
  | (k, fa) :: rest => unionAdd [(k, normF fa)] (normProps rest)
termination_by l => sizeOf l

def normA : ArrayAgg → NArr
  | .mk ts ec it =>
      .mk ts ec
        (match it with
         | some fa => some (normF fa)
         | none => none)
termination_by aa => sizeOf aa
end

theorem normF_make : normF makeFieldAgg = zeroNF := by
  simp [normF, makeFieldAgg, normVariants, zeroNF, NField.withPC]

theorem normO_make : normO makeObjectAgg = NObj.mk 0 [] := by
  simp [normO, makeObjectAgg, normProps]

theorem normVariant_mk (k : Kind) (c : Nat) (o : Option ObjectAgg)
    (a : Option ArrayAgg) (n : Option Bool) :
    normVariant (Variant.mk k c o a n)
      = NField.mk 0 (fun j => if j = k then c else 0)
          (if k = .number then n.getD true else true)
          (o.map normO) (a.map normA) := by
  cases o <;> cases a <;> simp [normVariant, Option.map]

theorem normA_mk (ts ec : Nat) (it : Option FieldAgg) :
    normA (ArrayAgg.mk ts ec it) = NArr.mk ts ec (it.map normF) := by
  cases it <;> simp [normA, Option.map]

theorem addNO_zero_right (x : NObj) : addNO x (.mk 0 []) = x := by
  cases x with
  | mk t p => simp [addNO, unionAdd_nil_right]

theorem addNO_zero_left (x : NObj) : addNO (.mk 0 []) x = x := by
  cases x with
  | mk t p => simp [addNO, unionAdd_nil_left]

theorem addNF_withPC (p q : Nat) (x y : NField) :
    addNF (NField.withPC p x) (NField.withPC q y)
      = NField.withPC (p + q) (addNF x y) := by
  cases x with
  | mk pc1 c1 i1 o1 a1 =>
  cases y with
  | mk pc2 c2 i2 o2 a2 => simp [addNF, NField.withPC]

theorem countsSingle_add (K : Kind) (c : Nat) :
    (fun j => if j = K then c + 1 else 0)
      = fun j => (if j = K then c else 0) + (if j = K then 1 else 0) := by
  funext j
  by_cases h : j = K <;> simp [h]

/-! #### The fold step is a merge with the singleton fold -/

mutual

theorem normF_addVS (fa : FieldAgg) (v : Value) :
    normF (addValueSample fa v)
      = addNF (normF fa) (normF (addValueSample makeFieldAgg v)) := by
  cases fa with
  | mk pc vars =>
    rw [show addValueSample (FieldAgg.mk pc vars) v
          = FieldAgg.mk (pc + 1) (addToVariants vars (detectKind v) v) from by
        simp [addValueSample],
      show addValueSample makeFieldAgg v
          = FieldAgg.mk 1 [updateVariant (makeVariant (detectKind v)) v] from by
        simp [makeFieldAgg, addValueSample, addToVariants]]
    simp only [normF]
    rw [normVariants_addToVariants vars v,
      show normVariants [updateVariant (makeVariant (detectKind v)) v]
          = normVariant (updateVariant (makeVariant (detectKind v)) v) from by
        simp [normVariants, addNF_zero_right],
      addNF_withPC]
termination_by (sizeOf v, 3, 0)

theorem normVariants_addToVariants (vars : List Variant) (v : Value) :
    normVariants (addToVariants vars (detectKind v) v)
      = addNF (normVariants vars)
          (normVariant (updateVariant (makeVariant (detectKind v)) v)) := by
  cases vars with
  | nil =>
      simp [addToVariants, normVariants, addNF_zero_right, addNF_zero_left]
  | cons w rest =>
      by_cases h : w.kind = detectKind v
      · rw [show addToVariants (w :: rest) (detectKind v) v
              = updateVariant w v :: rest from by simp [addToVariants, h]]
        simp only [normVariants]
        rw [normVariant_updateVariant w v h, addNF_assoc,
          addNF_comm (normVariant (updateVariant (makeVariant (detectKind v)) v))
            (normVariants rest),
          ← addNF_assoc]
      · rw [show addToVariants (w :: rest) (detectKind v) v
              = w :: addToVariants rest (detectKind v) v from by
            simp [addToVariants, h]]
        simp only [normVariants]
        rw [normVariants_addToVariants rest v, ← addNF_assoc]
termination_by (sizeOf v, 2, sizeOf vars)

theorem normVariant_updateVariant (w : Variant) (v : Value)
    (hw : w.kind = detectKind v) :
    normVariant (updateVariant w v)
      = addNF (normVariant w)
          (normVariant (updateVariant (makeVariant (detectKind v)) v)) := by
  obtain ⟨k, c, o, a, n⟩ := w
  simp only [Variant.kind] at hw
  cases v with
  | vobj entries =>
      simp only [detectKind] at hw
      subst hw
      rw [show updateVariant (Variant.mk .object c o a n) (Value.vobj entries)
            = Variant.mk .object (c + 1)
                (some (addObjEntries (bumpTotal (o.getD makeObjectAgg)) entries))
                a n from by simp [updateVariant]]
      rw [show updateVariant (makeVariant (detectKind (Value.vobj entries)))
              (Value.vobj entries)
            = Variant.mk .object 1
                (some (addObjEntries (ObjectAgg.mk 1 []) entries)) none none from by
          simp [detectKind, makeVariant, updateVariant, bumpTotal, makeObjectAgg,
            ObjectAgg.totalSeen, ObjectAgg.properties]]
      simp only [detectKind, normVariant_mk, Option.map_some', Option.map_none', addNF,
        NField.mk.injEq]
      refine ⟨by simp, countsSingle_add _ _, by simp, ?_, by
        simp [addNAOpt_none_right]⟩
      cases o with
      | none =>
          simp [addNOOpt, bumpTotal, makeObjectAgg, Option.getD,
            ObjectAgg.totalSeen, ObjectAgg.properties]
      | some oa =>
          obtain ⟨ts, props⟩ := oa
          simp only [Option.getD, Option.map_some', addNOOpt, Option.some.injEq]
          rw [normO_addObjEntries (bumpTotal (ObjectAgg.mk ts props)) entries,
            normO_addObjEntries (ObjectAgg.mk 1 []) entries, ← addNO_assoc]
          congr 1
          simp [bumpTotal, normO, normProps, addNO, unionAdd_nil_right,
            ObjectAgg.totalSeen, ObjectAgg.properties]
  | varr elems =>
      simp only [detectKind] at hw
      subst hw
      cases elems with
      | nil =>
          rw [show updateVariant (Variant.mk .array c o a n) (Value.varr [])
                = Variant.mk .array (c + 1) o
                    (some (ArrayAgg.mk ((a.getD makeArrayAgg).totalSeen + 1)
                      ((a.getD makeArrayAgg).emptyCount + 1)
                      (a.getD makeArrayAgg).items)) n from by
              simp [updateVariant]]
          rw [show updateVariant (makeVariant (detectKind (Value.varr [])))
                  (Value.varr [])
                = Variant.mk .array 1 none (some (ArrayAgg.mk 1 1 none)) none from by
              simp [detectKind, makeVariant, updateVariant, makeArrayAgg,
                Option.getD, ArrayAgg.totalSeen, ArrayAgg.emptyCount, ArrayAgg.items]]
          simp only [detectKind, normVariant_mk, Option.map_some', Option.map_none', addNF,
        NField.mk.injEq]
          refine ⟨by simp, countsSingle_add _ _, by simp, by
            simp [addNOOpt_none_right], ?_⟩
          cases a with
          | none =>
              simp [addNAOpt, makeArrayAgg, Option.getD, normA_mk,
                ArrayAgg.totalSeen, ArrayAgg.emptyCount, ArrayAgg.items]
          | some aa =>
              obtain ⟨ts, ec, it⟩ := aa
              simp [addNAOpt, Option.getD, normA_mk, addNA, addNFOpt_none_right,
                ArrayAgg.totalSeen, ArrayAgg.emptyCount, ArrayAgg.items]
      | cons e es =>
          rw [show updateVariant (Variant.mk .array c o a n) (Value.varr (e :: es))
                = Variant.mk .array (c + 1) o
                    (some (ArrayAgg.mk ((a.getD makeArrayAgg).totalSeen + 1)
                      (a.getD makeArrayAgg).emptyCount
                      (some (addElems ((a.getD makeArrayAgg).items.getD makeFieldAgg)
                        (e :: es))))) n from by
              simp [updateVariant]]
          rw [show updateVariant (makeVariant (detectKind (Value.varr (e :: es))))
                  (Value.varr (e :: es))
                = Variant.mk .array 1 none
                    (some (ArrayAgg.mk 1 0
                      (some (addElems makeFieldAgg (e :: es))))) none from by
              simp [detectKind, makeVariant, updateVariant, makeArrayAgg,
                Option.getD, ArrayAgg.totalSeen, ArrayAgg.emptyCount, ArrayAgg.items]]
          simp only [detectKind, normVariant_mk, Option.map_some', Option.map_none', addNF,
        NField.mk.injEq]
          refine ⟨by simp, countsSingle_add _ _, by simp, by
            simp [addNOOpt_none_right], ?_⟩
          cases a with
          | none =>
              simp [addNAOpt, makeArrayAgg, Option.getD, normA_mk,
                ArrayAgg.totalSeen, ArrayAgg.emptyCount, ArrayAgg.items]
          | some aa =>
              obtain ⟨ts, ec, it⟩ := aa
              simp only [addNAOpt, Option.getD, normA_mk, addNA, Option.some.injEq,
                Option.map_some', Option.map_none', ArrayAgg.totalSeen,
                ArrayAgg.emptyCount, ArrayAgg.items, NArr.mk.injEq]
              refine ⟨by trivial, by simp, ?_⟩
              cases it with
              | none => simp [addNFOpt, Option.getD]
              | some itf =>
                  simp only [Option.map_some', addNFOpt, Option.getD,
                    Option.some.injEq]
                  exact normF_addElems itf (e :: es)
  | vnum q =>
      simp only [detectKind] at hw
      subst hw
      rw [show updateVariant (Variant.mk .number c o a n) (Value.vnum q)
            = Variant.mk .number (c + 1) o a
                (some ((n.getD true) && isIntegerNum q)) from by
          simp [updateVariant]]
      rw [show updateVariant (makeVariant (detectKind (Value.vnum q))) (Value.vnum q)
            = Variant.mk .number 1 none none (some (true && isIntegerNum q)) from by
          simp [detectKind, makeVariant, updateVariant, Option.getD]]
      simp only [detectKind, normVariant_mk, Option.map_some', Option.map_none', addNF,
        NField.mk.injEq]
      refine ⟨by simp, countsSingle_add _ _, by simp, by
        simp [addNOOpt_none_right], by simp [addNAOpt_none_right]⟩
  | vnull =>
      simp only [detectKind] at hw
      subst hw
      rw [show updateVariant (Variant.mk .null c o a n) Value.vnull
            = Variant.mk .null (c + 1) o a n from by simp [updateVariant]]
      rw [show updateVariant (makeVariant (detectKind Value.vnull)) Value.vnull
            = Variant.mk .null 1 none none none from by
          simp [detectKind, makeVariant, updateVariant]]
      simp only [detectKind, normVariant_mk, Option.map_some', Option.map_none', addNF,
        NField.mk.injEq]
      refine ⟨by simp, countsSingle_add _ _, by simp, by
        simp [addNOOpt_none_right], by simp [addNAOpt_none_right]⟩
  | vbool b =>
      simp only [detectKind] at hw
      subst hw
      rw [show updateVariant (Variant.mk .boolean c o a n) (Value.vbool b)
            = Variant.mk .boolean (c + 1) o a n from by simp [updateVariant]]
      rw [show updateVariant (makeVariant (detectKind (Value.vbool b))) (Value.vbool b)
            = Variant.mk .boolean 1 none none none from by
          simp [detectKind, makeVariant, updateVariant]]
      simp only [detectKind, normVariant_mk, Option.map_some', Option.map_none', addNF,
        NField.mk.injEq]
      refine ⟨by simp, countsSingle_add _ _, by simp, by
        simp [addNOOpt_none_right], by simp [addNAOpt_none_right]⟩
  | vstr s =>
      simp only [detectKind] at hw
      subst hw
      rw [show updateVariant (Variant.mk .string c o a n) (Value.vstr s)
            = Variant.mk .string (c + 1) o a n from by simp [updateVariant]]
      rw [show updateVariant (makeVariant (detectKind (Value.vstr s))) (Value.vstr s)
            = Variant.mk .string 1 none none none from by
          simp [detectKind, makeVariant, updateVariant]]
      simp only [detectKind, normVariant_mk, Option.map_some', Option.map_none', addNF,
        NField.mk.injEq]
      refine ⟨by simp, countsSingle_add _ _, by simp, by
        simp [addNOOpt_none_right], by simp [addNAOpt_none_right]⟩
  | vtimestamp =>
      simp only [detectKind] at hw
      subst hw
      rw [show updateVariant (Variant.mk .timestamp c o a n) Value.vtimestamp
            = Variant.mk .timestamp (c + 1) o a n from by simp [updateVariant]]
      rw [show updateVariant (makeVariant (detectKind Value.vtimestamp)) Value.vtimestamp
            = Variant.mk .timestamp 1 none none none from by
          simp [detectKind, makeVariant, updateVariant]]
      simp only [detectKind, normVariant_mk, Option.map_some', Option.map_none', addNF,
        NField.mk.injEq]
      refine ⟨by simp, countsSingle_add _ _, by simp, by
        simp [addNOOpt_none_right], by simp [addNAOpt_none_right]⟩
  | vgeopoint =>
      simp only [detectKind] at hw
      subst hw
      rw [show updateVariant (Variant.mk .geopoint c o a n) Value.vgeopoint
            = Variant.mk .geopoint (c + 1) o a n from by simp [updateVariant]]
      rw [show updateVariant (makeVariant (detectKind Value.vgeopoint)) Value.vgeopoint
            = Variant.mk .geopoint 1 none none none from by
          simp [detectKind, makeVariant, updateVariant]]
      simp only [detectKind, normVariant_mk, Option.map_some', Option.map_none', addNF,
        NField.mk.injEq]
      refine ⟨by simp, countsSingle_add _ _, by simp, by
        simp [addNOOpt_none_right], by simp [addNAOpt_none_right]⟩
  | vreference =>
      simp only [detectKind] at hw
      subst hw
      rw [show updateVariant (Variant.mk .reference c o a n) Value.vreference
            = Variant.mk .reference (c + 1) o a n from by simp [updateVariant]]
      rw [show updateVariant (makeVariant (detectKind Value.vreference)) Value.vreference
            = Variant.mk .reference 1 none none none from by
          simp [detectKind, makeVariant, updateVariant]]
      simp only [detectKind, normVariant_mk, Option.map_some', Option.map_none', addNF,
        NField.mk.injEq]
      refine ⟨by simp, countsSingle_add _ _, by simp, by
        simp [addNOOpt_none_right], by simp [addNAOpt_none_right]⟩
  | vbytes =>
      simp only [detectKind] at hw
      subst hw
      rw [show updateVariant (Variant.mk .bytes c o a n) Value.vbytes
            = Variant.mk .bytes (c + 1) o a n from by simp [updateVariant]]
      rw [show updateVariant (makeVariant (detectKind Value.vbytes)) Value.vbytes
            = Variant.mk .bytes 1 none none none from by
          simp [detectKind, makeVariant, updateVariant]]
      simp only [detectKind, normVariant_mk, Option.map_some', Option.map_none', addNF,
        NField.mk.injEq]
      refine ⟨by simp, countsSingle_add _ _, by simp, by
        simp [addNOOpt_none_right], by simp [addNAOpt_none_right]⟩
  | vother =>
      simp only [detectKind] at hw
      subst hw
      rw [show updateVariant (Variant.mk .unknown c o a n) Value.vother
            = Variant.mk .unknown (c + 1) o a n from by simp [updateVariant]]
      rw [show updateVariant (makeVariant (detectKind Value.vother)) Value.vother
            = Variant.mk .unknown 1 none none none from by
          simp [detectKind, makeVariant, updateVariant]]
      simp only [detectKind, normVariant_mk, Option.map_some', Option.map_none', addNF,
        NField.mk.injEq]
      refine ⟨by simp, countsSingle_add _ _, by simp, by
        simp [addNOOpt_none_right], by simp [addNAOpt_none_right]⟩
termination_by (sizeOf v, 1, 0)

theorem normO_addObjEntries (oa : ObjectAgg) (entries : List (String × Value)) :
    normO (addObjEntries oa entries)
      = addNO (normO oa) (normO (addObjEntries (ObjectAgg.mk 0 []) entries)) := by
  cases entries with
  | nil =>
      simp [addObjEntries, normO, normProps, addNO_zero_right]
  | cons e rest =>
      obtain ⟨key, v⟩ := e
      obtain ⟨ts, props⟩ := oa
      rw [show addObjEntries (ObjectAgg.mk ts props) ((key, v) :: rest)
            = addObjEntries (ObjectAgg.mk ts (setProp props key
                (addValueSample ((getProp props key).getD makeFieldAgg) v))) rest from by
          simp [addObjEntries]]
      rw [normO_addObjEntries (ObjectAgg.mk ts (setProp props key
            (addValueSample ((getProp props key).getD makeFieldAgg) v))) rest]
      rw [show addObjEntries (ObjectAgg.mk 0 []) ((key, v) :: rest)
            = addObjEntries (ObjectAgg.mk 0 [(key, addValueSample makeFieldAgg v)])
                rest from by
          simp [addObjEntries, getProp, setProp, Option.getD]]
      rw [normO_addObjEntries (ObjectAgg.mk 0 [(key, addValueSample makeFieldAgg v)])
        rest]
      rw [← addNO_assoc]
      congr 1
      simp only [normO]
      rw [normProps_setProp props key v]
      simp [addNO, normProps, unionAdd_nil_right]
termination_by (sizeOf entries, 0, 0)

theorem normProps_setProp (props : List (String × FieldAgg)) (key : String)
    (v : Value) :
    normProps (setProp props key
        (addValueSample ((getProp props key).getD makeFieldAgg) v))
      = unionAdd (normProps props)
          [(key, normF (addValueSample makeFieldAgg v))] := by
  cases props with
  | nil =>
      simp [getProp, setProp, normProps, unionAdd_nil_left, unionAdd_nil_right]
  | cons hd rest =>
      obtain ⟨k0, fa0⟩ := hd
      by_cases h : k0 = key
      · subst h
        rw [show getProp ((k0, fa0) :: rest) k0 = some fa0 from by simp [getProp]]
        rw [show setProp ((k0, fa0) :: rest) k0
              (addValueSample ((some fa0).getD makeFieldAgg) v)
            = (k0, addValueSample ((some fa0).getD makeFieldAgg) v) :: rest from by
          simp [setProp]]
        simp only [normProps, Option.getD]
        rw [normF_addVS fa0 v]
        rw [show ([(k0, addNF (normF fa0)
              (normF (addValueSample makeFieldAgg v)))] : List (String × NField))
            = unionAdd [(k0, normF fa0)]
                [(k0, normF (addValueSample makeFieldAgg v))] from by
          rw [unionAdd_cons_eq rfl]
          simp [unionAdd]]
        rw [unionAdd_assoc,
          unionAdd_comm [(k0, normF (addValueSample makeFieldAgg v))]
            (normProps rest),
          ← unionAdd_assoc]
      · rw [show getProp ((k0, fa0) :: rest) key = getProp rest key from by
            simp [getProp, h]]
        rw [show setProp ((k0, fa0) :: rest) key
              (addValueSample ((getProp rest key).getD makeFieldAgg) v)
            = (k0, fa0) :: setProp rest key
                (addValueSample ((getProp rest key).getD makeFieldAgg) v) from by
          simp [setProp, h]]
        simp only [normProps]
        rw [normProps_setProp rest key v, ← unionAdd_assoc]
termination_by (sizeOf v, 4, sizeOf props)

theorem normF_addElems (fa : FieldAgg) (elems : List Value) :
    normF (addElems fa elems)
      = addNF (normF fa) (normF (addElems makeFieldAgg elems)) := by
  cases elems with
  | nil => simp [addElems, normF_make, addNF_zero_right]
  | cons e rest =>
      rw [show addElems fa (e :: rest) = addElems (addValueSample fa e) rest from by
          simp [addElems],
        show addElems makeFieldAgg (e :: rest)
            = addElems (addValueSample makeFieldAgg e) rest from by
          simp [addElems]]
      rw [normF_addElems (addValueSample fa e) rest,
        normF_addElems (addValueSample makeFieldAgg e) rest,
        normF_addVS fa e, addNF_assoc]
termination_by (sizeOf elems, 0, 0)

end

/-! #### The monoid law at the document level -/

theorem normO_addObjectSample (oa : ObjectAgg) (d : List (String × Value)) :
    normO (addObjectSample oa d)
      = addNO (normO oa) (normO (addObjectSample makeObjectAgg d)) := by
  obtain ⟨ts, props⟩ := oa
  simp only [addObjectSample, makeObjectAgg, ObjectAgg.totalSeen,
    ObjectAgg.properties]
  rw [normO_addObjEntries (ObjectAgg.mk (ts + 1) props) d,
    normO_addObjEntries (ObjectAgg.mk (0 + 1) []) d, ← addNO_assoc]
  congr 1
  simp [normO, normProps, addNO, unionAdd_nil_right]

/-- Folding a list of documents (each given by its entry list) into a
fresh ObjectAggregate, as `buildProfile` does with
`docs.forEach(d => addObjectSample(agg, d.data()))`. -/
def foldDocs (docs : List (List (String × Value))) : ObjectAgg :=
  docs.foldl addObjectSample makeObjectAgg

theorem normO_foldl (A : ObjectAgg) (docs : List (List (String × Value))) :
    normO (docs.foldl addObjectSample A)
      = addNO (normO A) (normO (foldDocs docs)) := by
  induction docs generalizing A with
  | nil => simp [foldDocs, List.foldl, normO_make, addNO_zero_right]
  | cons d rest ih =>
      simp only [List.foldl]
      rw [show foldDocs (d :: rest)
            = rest.foldl addObjectSample (addObjectSample makeObjectAgg d) from rfl,
        ih (addObjectSample makeObjectAgg d), ih (addObjectSample A d),
        normO_addObjectSample A d, addNO_assoc]

theorem normO_foldDocs_cons (d : List (String × Value))
    (rest : List (List (String × Value))) :
    normO (foldDocs (d :: rest))
      = addNO (normO (addObjectSample makeObjectAgg d)) (normO (foldDocs rest)) :=
  normO_foldl (addObjectSample makeObjectAgg d) rest

theorem normO_foldDocs_append (xs ys : List (List (String × Value))) :
    normO (foldDocs (xs ++ ys))
      = addNO (normO (foldDocs xs)) (normO (foldDocs ys)) := by
  simp only [foldDocs, List.foldl_append]
  exact normO_foldl (xs.foldl addObjectSample makeObjectAgg) ys

theorem normO_foldDocs_perm {xs ys : List (List (String × Value))}
    (h : xs.Perm ys) : normO (foldDocs xs) = normO (foldDocs ys) := by
  induction h with
  | nil => rfl
  | cons d _ ih => rw [normO_foldDocs_cons, normO_foldDocs_cons, ih]
  | swap x y l =>
      rw [normO_foldDocs_cons, normO_foldDocs_cons, normO_foldDocs_cons,
        normO_foldDocs_cons, ← addNO_assoc, ← addNO_assoc,
        addNO_comm (normO (addObjectSample makeObjectAgg y))
          (normO (addObjectSample makeObjectAgg x))]
  | trans _ _ ih1 ih2 => rw [ih1, ih2]

/-! ### The schema linter (`lintCollectionSchema.js`)

The document source and its pagination (`scanCollectionDocs`) are the
out-of-scope collaborator: a scan is modelled as visiting, in order, the
first `SAMPLE_LIMIT` documents (all of them when the limit is unset) of
a given document list.  JS numbers in the report are exact rationals and
`Number(x.toFixed(4))` is ideal rounding to four decimal places. -/

/-- One document: its id and its `data()` entries. -/
structure LDoc where
  id : String
  data : List (String × Value)

/-- One entry of `STRING_REGEX_RULES`: the `regex.test` predicate and the
`note`. -/
structure RegexRule where
  test : String → Bool
  note : String

/-- The configuration surface of the linter (`CONFIG`, lines 18-42);
`COLLECTION_PATH` and `BATCH_SIZE` belong to the external document
source. -/
structure LintConfig where
  sampleLimit : Option Nat
  requiredThreshold : ℚ
  rareFieldMaxPct : ℚ
  examplesPerIssue : Nat
  checkFieldNameVariants : Bool
  stringRegexRules : List (String × RegexRule)

/-- `/^\d{4}-\d{2}-\d{2}$/.test` (the "date" rule). -/
def dateRegexTest (s : String) : Bool :=
  match s.toList with
  | [a, b, c, d, h1, e, f, h2, g, i] =>
      a.isDigit && b.isDigit && c.isDigit && d.isDigit && (h1 == '-') &&
      e.isDigit && f.isDigit && (h2 == '-') && g.isDigit && i.isDigit
  | _ => false

/-- `/^([01]\d|2[0-3]):[0-5]\d$/.test` (the "time" rule). -/
def timeRegexTest (s : String) : Bool :=
  match s.toList with
  | [h1, h2, c, m1, m2] =>
      (((h1 == '0' || h1 == '1') && h2.isDigit) ||
        ((h1 == '2') && ('0' ≤ h2 && h2 ≤ '3'))) &&
      (c == ':') && ('0' ≤ m1 && m1 ≤ '5') && m2.isDigit
  | _ => false

/-- The literal `CONFIG` values of `lintCollectionSchema.js`. -/
def LINT_CONFIG : LintConfig :=
  ⟨none, 9 / 10, 5 / 100, 20, true,
    [("date", ⟨dateRegexTest, "YYYY-MM-DD"⟩),
     ("time", ⟨timeRegexTest, "HH:mm (24h)"⟩)]⟩

/-- The entry loop of `flattenDoc` (lines 66-84): plain nested objects
recurse with a dotted path prefix, every other value lands in `out`. -/
def flattenEntries (base : String) (out : List (String × Value)) :
    List (String × Value) → List (String × Value)
  | [] => out
  | (k, v) :: rest =>
      let path := if base = "" then k else base ++ "." ++ k
      match v with
      | .vobj inner => flattenEntries base (flattenEntries path out inner) rest
      | _ => flattenEntries base (setProp out path v) rest
termination_by l => sizeOf l
decreasing_by
  all_goals simp
  all_goals omega

/-- `flattenDoc(data)`. -/
def flattenDoc (data : List (String × Value)) : List (String × Value) :=
  flattenEntries "" [] data

/-- `normalizeFieldName(path)` (lines 86-89): drop `.` and `_`,
lowercase. -/
def normalizeFieldName (path : String) : String :=
  String.mk ((path.toList.filter
    (fun ch => !(ch == '.') && !(ch == '_'))).map Char.toLower)

/-- `pushExample(arr, value, limit)` (lines 91-94). -/
def pushExample {α : Type} (arr : List α) (value : α) (limit : Nat) : List α :=
  if arr.length ≥ limit then arr else arr ++ [value]

/-- `makeFieldStat()` (lines 162-170).  `valueExamples` is filled by the
JS but never read by `buildReport` and is omitted;
`regexViolations` entries are `(doc id, offending string value)`. -/
structure FieldStat where
  presentCount : Nat
  kinds : List (Kind × Nat)
  kindExamples : List (Kind × List String)
  regexViolations : List (String × String)

def makeFieldStat : FieldStat := ⟨0, [], [], []⟩

/-- `stat.kinds[kind] = (stat.kinds[kind] || 0) + 1`. -/
def bumpKind (kinds : List (Kind × Nat)) (k : Kind) : List (Kind × Nat) :=
  setProp kinds k ((getProp kinds k).getD 0 + 1)

/-- The `kindExamples` update of pass 1. -/
def bumpKindExamples (ke : List (Kind × List String)) (k : Kind)
    (docId : String) (limit : Nat) : List (Kind × List String) :=
  setProp ke k (pushExample ((getProp ke k).getD []) docId limit)

/-- The per-(fieldPath, value) body of the pass-1 loop
(lines 194-220, without the name-variant bookkeeping). -/
def updateStatForValue (cfg : LintConfig) (stat : FieldStat)
    (fieldPath docId : String) (v : Value) : FieldStat :=
  let stat1 : FieldStat :=
    ⟨stat.presentCount + 1, bumpKind stat.kinds (detectKind v),
      bumpKindExamples stat.kindExamples (detectKind v) docId
        cfg.examplesPerIssue,
      stat.regexViolations⟩
  match getProp cfg.stringRegexRules fieldPath, v with
  | some rule, .vstr s =>
      if rule.test s then stat1
      else ⟨stat1.presentCount, stat1.kinds, stat1.kindExamples,
        pushExample stat1.regexViolations (docId, s) cfg.examplesPerIssue⟩
  | _, _ => stat1

/-- `if (s.contains x) skip else add` — JS `Set.add` on an
insertion-ordered list. -/
def addToSet (s : List String) (x : String) : List String :=
  if s.contains x then s else s ++ [x]

/-- The pass-1 accumulator: `fieldStats`, `variantGroups`, `totalDocs`. -/
structure Pass1State where
  fieldStats : List (String × FieldStat)
  variantGroups : List (String × List String)
  totalDocs : Nat

/-- One `(fieldPath, value)` step of pass 1 (lines 194-231). -/
def pass1Entry (cfg : LintConfig) (docId : String) (st : Pass1State)
    (e : String × Value) : Pass1State :=
  let stat := (getProp st.fieldStats e.1).getD makeFieldStat
  let fs := setProp st.fieldStats e.1
    (updateStatForValue cfg stat e.1 docId e.2)
  let vg :=
    if cfg.checkFieldNameVariants then
      let norm := normalizeFieldName e.1
      setProp st.variantGroups norm
        (addToSet ((getProp st.variantGroups norm).getD []) e.1)
    else st.variantGroups
  ⟨fs, vg, st.totalDocs⟩

/-- One document of pass 1: `totalDocs++`, flatten, then the entry loop. -/
def pass1Doc (cfg : LintConfig) (st : Pass1State) (d : LDoc) : Pass1State :=
  (flattenDoc d.data).foldl (pass1Entry cfg d.id)
    ⟨st.fieldStats, st.variantGroups, st.totalDocs + 1⟩

/-- The documents actually visited by `scanCollectionDocs`: the first
`sampleLimit` of the collection (all when unset). -/
def scanDocs (cfg : LintConfig) (docs : List LDoc) : List LDoc :=
  match cfg.sampleLimit with
  | none => docs
  | some n => docs.take n

/-- `pass1_buildStats`: the accumulated state plus `docsScanned`. -/
def pass1 (cfg : LintConfig) (docs : List LDoc) : Pass1State × Nat :=
  let scanned := scanDocs cfg docs
  (scanned.foldl (pass1Doc cfg) ⟨[], [], 0⟩, scanned.length)

/-- The expected-fields computation of `run` (lines 423-427): raw
(unrounded) presence fraction at least the threshold. -/
def expectedFieldsPass1 (cfg : LintConfig) (st : Pass1State) : List String :=
  (st.fieldStats.filter (fun p =>
    decide (cfg.requiredThreshold ≤
      (if st.totalDocs = 0 then 0
       else (p.2.presentCount : ℚ) / st.totalDocs)))).map (fun p => p.1)

/-- One document of `pass2_missingExamples` (lines 242-257). -/
def pass2Doc (cfg : LintConfig) (expectedList : List String)
    (me : List (String × List String)) (d : LDoc) :
    List (String × List String) :=
  let present := (flattenDoc d.data).map (fun e => e.1)
  expectedList.foldl (fun me f =>
    if present.contains f then me
    else setProp me f (pushExample ((getProp me f).getD []) d.id
      cfg.examplesPerIssue)) me

/-- `pass2_missingExamples(collectionPath, expectedFields)`. -/
def pass2 (cfg : LintConfig) (expectedList : List String)
    (docs : List LDoc) : List (String × List String) :=
  (scanDocs cfg docs).foldl (pass2Doc cfg expectedList) []

/-- `Number(x.toFixed(4))`: ideal rounding to 4 decimal places. -/
def round4 (x : ℚ) : ℚ := (round (x * 10000) : ℚ) / 10000

/-- One element of the `fields` array of `buildReport` (lines 264-281). -/
structure FieldRow where
  field : String
  present_count : Nat
  present_pct : ℚ
  kinds : List (Kind × Nat)
  type_mismatch : Bool
  regex_violations_examples : Option (List (String × String))

/-- One `missing_fields` issue (lines 289-302). -/
structure MissingIssue where
  field : String
  missing_count : Nat
  missing_pct : ℚ
  example_doc_ids : Option (List String)

/-- One `type_mismatches` issue (lines 305-319). -/
structure TypeMismatchIssue where
  field : String
  kinds : List (Kind × Nat)
  example_doc_ids_by_kind : List (Kind × List String)

/-- One `rare_fields` issue (lines 322-335). -/
structure RareIssue where
  field : String
  present_count : Nat
  present_pct : ℚ
  example_doc_ids : Option (List String)

/-- One `field_name_variants` group (lines 338-360). -/
structure VariantGroupIssue where
  normalized : String
  canonical : String
  variants : List (String × Nat)

/-- One `regex_violations` issue (lines 363-375); the printed regex
source string is omitted. -/
structure RegexIssue where
  field : String
  note : String
  examples : List (String × String)

/-- The `summary` block (lines 394-402). -/
structure ReportSummary where
  fields_total : Nat
  expected_fields_count : Nat
  missing_fields_issues : Nat
  type_mismatch_issues : Nat
  regex_issues : Nat
  rare_fields_issues : Nat
  docs_with_issues_examples_count : Nat

/-- The report object (lines 384-410); of `meta` only the two document
counters are kept (the rest echoes the configuration). -/
structure LintReport where
  docs_scanned : Nat
  docs_total_seen : Nat
  summary : ReportSummary
  missing_fields : Option (List MissingIssue)
  type_mismatches : Option (List TypeMismatchIssue)
  regex_violations : Option (List RegexIssue)
  rare_fields : Option (List RareIssue)
  field_name_variants : Option (List VariantGroupIssue)

/-- The `fields` array (lines 264-281). -/
def buildFieldRows (totalDocs : Nat)
    (fieldStats : List (String × FieldStat)) : List FieldRow :=
  fieldStats.map (fun p =>
    let stat := p.2
    let pct : ℚ :=
      if totalDocs = 0 then 0 else (stat.presentCount : ℚ) / totalDocs
    let nonNullKinds := (stat.kinds.map Prod.fst).filter
      (fun k => !(k == Kind.null))
    ⟨p.1, stat.presentCount, round4 pct, stat.kinds,
      decide (nonNullKinds.length > 1),
      if stat.regexViolations.isEmpty then none
      else some stat.regexViolations⟩)

/-- `expectedFields` of `buildReport` (lines 284-286): rounded
`present_pct` at least the threshold, sorted by `present_pct`
descending (stable). -/
def expectedRows (cfg : LintConfig) (rows : List FieldRow) : List FieldRow :=
  (rows.filter (fun f => decide (cfg.requiredThreshold ≤ f.present_pct))).mergeSort
    (fun a b => decide (b.present_pct ≤ a.present_pct))

/-- `missingIssues` (lines 289-302). -/
def buildMissingIssues (totalDocs : Nat) (expRows : List FieldRow)
    (missingExamples : List (String × List String)) : List MissingIssue :=
  (expRows.filterMap (fun f =>
    if totalDocs ≤ f.present_count then none
    else
      let missingCount := totalDocs - f.present_count
      let examples := (getProp missingExamples f.field).getD []
      some ⟨f.field, missingCount,
        round4 ((missingCount : ℚ) / totalDocs),
        if examples.isEmpty then none else some examples⟩)).mergeSort
    (fun a b => decide (b.missing_count ≤ a.missing_count))

/-- `typeMismatchIssues` (lines 305-319). -/
def buildTypeMismatchIssues (rows : List FieldRow)
    (fieldStats : List (String × FieldStat)) : List TypeMismatchIssue :=
  ((rows.filter (fun f => f.type_mismatch)).map (fun f =>
    let stat := (getProp fieldStats f.field).getD makeFieldStat
    let ke := stat.kindExamples.filter (fun p => !p.2.isEmpty)
    (⟨f.field, f.kinds, ke⟩ : TypeMismatchIssue))).mergeSort
    (fun a b => decide (b.kinds.length ≤ a.kinds.length))

/-- `rareIssues` (lines 322-335). -/
def buildRareIssues (cfg : LintConfig) (rows : List FieldRow)
    (fieldStats : List (String × FieldStat)) : List RareIssue :=
  ((rows.filter (fun f => decide (f.present_pct ≤ cfg.rareFieldMaxPct))).map
    (fun f =>
      let stat := (getProp fieldStats f.field).getD makeFieldStat
      let ex := (stat.kindExamples.head?.map (fun p => p.2)).getD []
      (⟨f.field, f.present_count, f.present_pct,
        if ex.isEmpty then none else some ex⟩ : RareIssue))).mergeSort
    (fun a b => decide (a.present_pct ≤ b.present_pct))

/-- `fieldNameVariantIssues` (lines 338-360). -/
def buildVariantIssues (cfg : LintConfig)
    (variantGroups : List (String × List String))
    (fieldStats : List (String × FieldStat)) :
    Option (List VariantGroupIssue) :=
  if cfg.checkFieldNameVariants then
    let pcOf := fun (v : String) =>
      ((getProp fieldStats v).map (fun s => s.presentCount)).getD 0
    let groups := (variantGroups.filter (fun p => p.2.length > 1)).map
      (fun p =>
        let sorted := p.2.mergeSort (fun a b => decide (pcOf b ≤ pcOf a))
        (⟨p.1, sorted.headD "", sorted.map (fun v => (v, pcOf v))⟩ :
          VariantGroupIssue))
    if groups.isEmpty then none else some groups
  else none

/-- `regexIssues` (lines 363-375). -/
def buildRegexIssues (cfg : LintConfig)
    (fieldStats : List (String × FieldStat)) : List RegexIssue :=
  cfg.stringRegexRules.filterMap (fun p =>
    match getProp fieldStats p.1 with
    | none => none
    | some stat =>
        if stat.regexViolations.isEmpty then none
        else some ⟨p.1, p.2.note, stat.regexViolations⟩)

/-- The deduplicated union used for `docsWithIssuesEstimate`
(lines 377-382). -/
def dedupStrings (l : List String) : List String :=
  l.foldl addToSet []

/-- `buildReport` (lines 263-411). -/
def buildReport (cfg : LintConfig) (totalDocs docsScanned : Nat)
    (fieldStats : List (String × FieldStat))
    (variantGroups : List (String × List String))
    (missingExamples : List (String × List String)) : LintReport :=
  let rows := buildFieldRows totalDocs fieldStats
  let expRows := expectedRows cfg rows
  let missingIssues := buildMissingIssues totalDocs expRows missingExamples
  let typeMismatchIssues := buildTypeMismatchIssues rows fieldStats
  let rareIssues := buildRareIssues cfg rows fieldStats
  let variantIssues := buildVariantIssues cfg variantGroups fieldStats
  let regexIssues := buildRegexIssues cfg fieldStats
  let docsWithIssues := (dedupStrings
    ((missingIssues.flatMap (fun i => i.example_doc_ids.getD [])) ++
     (typeMismatchIssues.flatMap
       (fun i => i.example_doc_ids_by_kind.flatMap (fun p => p.2))) ++
     (regexIssues.flatMap (fun i => i.examples.map (fun e => e.1))))).length
  ⟨docsScanned, totalDocs,
    ⟨rows.length, expRows.length, missingIssues.length,
      typeMismatchIssues.length, regexIssues.length, rareIssues.length,
      docsWithIssues⟩,
    if missingIssues.isEmpty then none else some missingIssues,
    if typeMismatchIssues.isEmpty then none else some typeMismatchIssues,
    if regexIssues.isEmpty then none else some regexIssues,
    if rareIssues.isEmpty then none else some rareIssues,
    variantIssues⟩

/-- The main `run` flow (lines 414-442): pass 1, the expected-fields
set, pass 2 when that set is nonempty, then `buildReport`. -/
def runLint (cfg : LintConfig) (docs : List LDoc) : LintReport :=
  let p1 := pass1 cfg docs
  let expected := expectedFieldsPass1 cfg p1.1
  let missingExamples :=
    if expected.length > 0 then pass2 cfg expected docs else []
  buildReport cfg p1.1.totalDocs p1.2 p1.1.fieldStats p1.1.variantGroups
    missingExamples

/-! ### Structural invariants of the aggregate tree

`wfValue` states the JS-guaranteed shape of an input value: the keys of
every (nested) object are distinct, as `Object.entries` of a JS object
cannot repeat a key. -/

mutual
def wfValue : Value → Bool
  | .vobj entries =>
      decide ((entries.map Prod.fst).Nodup) && wfEntries entries
  | .varr elems => wfElems elems
  | _ => true
termination_by v => sizeOf v

def wfEntries : List (String × Value) → Bool
  | [] => true
  | (_, v) :: rest => wfValue v && wfEntries rest
termination_by l => sizeOf l

def wfElems : List Value → Bool
  | [] => true
  | v :: rest => wfValue v && wfElems rest
termination_by l => sizeOf l
end

/-- A well-formed document: a well-formed object payload. -/
def wfDoc (d : List (String × Value)) : Bool := wfValue (.vobj d)

/-- `Σ variants[*].count`. -/
def sumCounts : List Variant → Nat
  | [] => 0
  | v :: rest => v.count + sumCounts rest

mutual
/-- Invariant of a field aggregate: `presentCount = Σ variants[*].count`,
recursively in the whole tree. -/
inductive InvF : FieldAgg → Prop where
  | mk : ∀ pc vars, pc = sumCounts vars →
      (∀ w, w ∈ vars → InvV w) → InvF (.mk pc vars)

inductive InvV : Variant → Prop where
  | mk : ∀ k c o a n,
      (∀ oa, o = some oa → InvO oa) →
      (∀ aa, a = some aa → InvA aa) → InvV (.mk k c o a n)

/-- Invariant of an object aggregate: every property has
`1 ≤ presentCount ≤ totalSeen` and is itself invariant. -/
inductive InvO : ObjectAgg → Prop where
  | mk : ∀ ts props,
      (∀ key fa, getProp props key = some fa →
        1 ≤ fa.presentCount ∧ fa.presentCount ≤ ts) →
      (∀ key fa, getProp props key = some fa → InvF fa) →
      InvO (.mk ts props)

/-- Invariant of an array aggregate: the shared items aggregate, when
present, has received at least one sample and is invariant. -/
inductive InvA : ArrayAgg → Prop where
  | mk : ∀ ts ec items,
      (∀ fa, items = some fa → 1 ≤ fa.presentCount) →
      (∀ fa, items = some fa → InvF fa) →
      InvA (.mk ts ec items)
end

theorem invF_make : InvF makeFieldAgg :=
  .mk 0 [] rfl (fun w hw => absurd hw (List.not_mem_nil w))

theorem invO_make : InvO makeObjectAgg :=
  .mk 0 [] (fun key fa h => by simp [getProp] at h)
    (fun key fa h => by simp [getProp] at h)

theorem invV_makeVariant (k : Kind) : InvV (makeVariant k) := by
  unfold makeVariant
  refine .mk _ _ _ _ _ (fun oa h => ?_) (fun aa h => ?_)
  · split at h
    · cases h; exact invO_make
    · cases h
  · split at h
    · cases h
      exact .mk 0 0 none (fun fa h => by cases h) (fun fa h => by cases h)
    · cases h

theorem pc_addVS (fa : FieldAgg) (v : Value) :
    (addValueSample fa v).presentCount = fa.presentCount + 1 := by
  cases fa with
  | mk pc vars => simp [addValueSample, FieldAgg.presentCount]

theorem pc_addElems (fa : FieldAgg) (elems : List Value) :
    fa.presentCount ≤ (addElems fa elems).presentCount := by
  induction elems generalizing fa with
  | nil => simp [addElems]
  | cons e rest ih =>
      rw [show addElems fa (e :: rest) = addElems (addValueSample fa e) rest from by
        simp [addElems]]
      calc fa.presentCount ≤ (addValueSample fa e).presentCount := by
            rw [pc_addVS]; omega
        _ ≤ _ := ih (addValueSample fa e)

theorem kind_updateVariant (w : Variant) (v : Value) :
    (updateVariant w v).kind = w.kind := by
  obtain ⟨k, c, o, a, n⟩ := w
  cases v
  all_goals try (simp only [updateVariant]; split <;> simp [Variant.kind])
  all_goals simp [updateVariant, Variant.kind]

theorem count_updateVariant (w : Variant) (v : Value) :
    (updateVariant w v).count = w.count + 1 := by
  obtain ⟨k, c, o, a, n⟩ := w
  cases v
  all_goals try (simp only [updateVariant]; split <;> simp [Variant.count])
  all_goals simp [updateVariant, Variant.count]

theorem sumCounts_addToVariants (vars : List Variant) (k : Kind) (v : Value) :
    sumCounts (addToVariants vars k v) = sumCounts vars + 1 := by
  induction vars with
  | nil =>
      simp only [addToVariants, sumCounts, count_updateVariant]
      simp [makeVariant, Variant.count]
  | cons w rest ih =>
      by_cases h : w.kind = k
      · rw [show addToVariants (w :: rest) k v = updateVariant w v :: rest from by
          simp [addToVariants, h]]
        simp [sumCounts, count_updateVariant]
        omega
      · rw [show addToVariants (w :: rest) k v = w :: addToVariants rest k v from by
          simp [addToVariants, h]]
        simp [sumCounts, ih]
        omega

theorem getProp_setProp_self {κ α : Type} [DecidableEq κ]
    (l : List (κ × α)) (k : κ) (x : α) :
    getProp (setProp l k x) k = some x := by
  induction l with
  | nil => simp [setProp, getProp]
  | cons hd rest ih =>
      obtain ⟨k', y⟩ := hd
      by_cases h : k' = k
      · simp [setProp, getProp, h]
      · simp [setProp, getProp, h, ih]

theorem getProp_setProp_ne {κ α : Type} [DecidableEq κ]
    (l : List (κ × α)) (k j : κ) (x : α) (hne : j ≠ k) :
    getProp (setProp l k x) j = getProp l j := by
  have hkj : ¬ (k = j) := fun hh => hne hh.symm
  induction l with
  | nil => simp [setProp, getProp, hkj]
  | cons hd rest ih =>
      obtain ⟨k', y⟩ := hd
      by_cases h : k' = k
      · have h2 : ¬ (k' = j) := fun hh => hne (h.symm.trans hh).symm
        rw [show setProp ((k', y) :: rest) k x = (k, x) :: rest from by
          simp [setProp, h]]
        simp [getProp, hkj, h2]
      · rw [show setProp ((k', y) :: rest) k x = (k', y) :: setProp rest k x
          from by simp [setProp, h]]
        by_cases h2 : k' = j
        · simp [getProp, h2]
        · simp [getProp, h2, ih]

/-- The object-entries loop preserves the object invariant; the
behaviour of `addValueSample` on the entry values is taken as a
hypothesis (`IH`) so that this lemma can be used inside the mutual
induction below. -/
theorem invO_addObjEntries (ts : Nat) (props : List (String × FieldAgg))
    (entries : List (String × Value)) (hts : 1 ≤ ts)
    (IH : ∀ p, p ∈ entries → ∀ fa, InvF fa → wfValue p.2 = true →
      InvF (addValueSample fa p.2))
    (hprops : ∀ key fa, getProp props key = some fa →
      1 ≤ fa.presentCount ∧ InvF fa ∧
      fa.presentCount + (if key ∈ entries.map Prod.fst then 1 else 0) ≤ ts)
    (hnodup : (entries.map Prod.fst).Nodup)
    (hwf : wfEntries entries = true) :
    InvO (addObjEntries (.mk ts props) entries) := by
  revert props IH hprops hnodup hwf
  induction entries with
  | nil =>
      intro props IH hprops hnodup hwf
      rw [show addObjEntries (ObjectAgg.mk ts props) [] = ObjectAgg.mk ts props
        from by simp [addObjEntries]]
      refine .mk _ _ (fun key fa hget => ?_) (fun key fa hget => ?_)
      · have := hprops key fa hget
        simp at this
        exact ⟨this.1, this.2.2⟩
      · exact (hprops key fa hget).2.1
  | cons e rest ihrec =>
      obtain ⟨key, v⟩ := e
      intro props IH hprops hnodup hwf
      have hwf2 : wfValue v = true ∧ wfEntries rest = true := by
        rw [show wfEntries ((key, v) :: rest) = (wfValue v && wfEntries rest)
          from by simp [wfEntries]] at hwf
        rw [Bool.and_eq_true] at hwf
        exact hwf
      have hnd2 : key ∉ rest.map Prod.fst ∧ (rest.map Prod.fst).Nodup := by
        rw [show ((key, v) :: rest).map Prod.fst = key :: rest.map Prod.fst
          from by simp] at hnodup
        exact List.nodup_cons.mp hnodup
      rw [show addObjEntries (ObjectAgg.mk ts props) ((key, v) :: rest)
            = addObjEntries (ObjectAgg.mk ts (setProp props key
                (addValueSample ((getProp props key).getD makeFieldAgg) v)))
                rest from by simp [addObjEntries]]
      have hchild : InvF ((getProp props key).getD makeFieldAgg) := by
        cases hg : getProp props key with
        | none => simp [Option.getD]; exact invF_make
        | some fa0 =>
            simp only [Option.getD]
            exact (hprops key fa0 hg).2.1
      have hInvNew : InvF (addValueSample ((getProp props key).getD
          makeFieldAgg) v) :=
        IH (key, v) (List.mem_cons_self _ _) _ hchild hwf2.1
      refine ihrec
        (setProp props key
          (addValueSample ((getProp props key).getD makeFieldAgg) v))
        (fun p hp => IH p (List.mem_cons_of_mem _ hp))
        (fun j fa hget => ?_) hnd2.2 hwf2.2
      by_cases hj : j = key
      · subst hj
        rw [getProp_setProp_self] at hget
        cases hget
        refine ⟨by rw [pc_addVS]; omega, hInvNew, ?_⟩
        have hnotin : j ∉ rest.map Prod.fst := hnd2.1
        rw [if_neg hnotin, pc_addVS]
        cases hg : getProp props j with
        | none =>
            simp [hg, Option.getD, makeFieldAgg, FieldAgg.presentCount]
            omega
        | some fa0 =>
            have := (hprops j fa0 hg).2.2
            rw [if_pos (by simp)] at this
            simp only [hg, Option.getD]
            omega
      · rw [getProp_setProp_ne _ _ _ _ hj] at hget
        have h1 := hprops j fa hget
        refine ⟨h1.1, h1.2.1, ?_⟩
        have h2 := h1.2.2
        by_cases hmem : j ∈ rest.map Prod.fst
        · rw [if_pos hmem]
          rw [if_pos (by simp [hmem])] at h2
          exact h2
        · rw [if_neg hmem]
          split at h2 <;> omega

mutual

theorem invF_addVS (fa : FieldAgg) (v : Value) (hf : InvF fa)
    (hv : wfValue v = true) : InvF (addValueSample fa v) := by
  cases fa with
  | mk pc vars =>
      cases hf with
      | mk _ _ hsum hvars =>
          rw [show addValueSample (FieldAgg.mk pc vars) v
              = FieldAgg.mk (pc + 1) (addToVariants vars (detectKind v) v) from by
            simp [addValueSample]]
          exact .mk _ _ (by rw [sumCounts_addToVariants, ← hsum])
            (invVars_addToVariants vars v hvars hv)
termination_by (sizeOf v, 3, 0)

theorem invVars_addToVariants (vars : List Variant) (v : Value)
    (h : ∀ w, w ∈ vars → InvV w) (hv : wfValue v = true) :
    ∀ w, w ∈ addToVariants vars (detectKind v) v → InvV w := by
  revert h
  cases vars with
  | nil =>
      intro h w hw
      rw [show addToVariants [] (detectKind v) v
          = [updateVariant (makeVariant (detectKind v)) v] from by
        simp [addToVariants]] at hw
      rw [List.mem_singleton] at hw
      subst hw
      exact invV_updateVariant (makeVariant (detectKind v)) v
        (invV_makeVariant (detectKind v)) hv
  | cons w0 rest =>
      intro h
      by_cases hk : w0.kind = detectKind v
      · intro w hw
        rw [show addToVariants (w0 :: rest) (detectKind v) v
            = updateVariant w0 v :: rest from by simp [addToVariants, hk]] at hw
        rcases List.mem_cons.mp hw with hw | hw
        · subst hw
          exact invV_updateVariant w0 v (h w0 (List.mem_cons_self w0 rest)) hv
        · exact h w (List.mem_cons_of_mem w0 hw)
      · intro w hw
        rw [show addToVariants (w0 :: rest) (detectKind v) v
            = w0 :: addToVariants rest (detectKind v) v from by
          simp [addToVariants, hk]] at hw
        rcases List.mem_cons.mp hw with hw | hw
        · subst hw
          exact h w (List.mem_cons_self w rest)
        · exact invVars_addToVariants rest v
            (fun w' hw' => h w' (List.mem_cons_of_mem w0 hw')) hv w hw
termination_by (sizeOf v, 2, sizeOf vars)

theorem invV_updateVariant (w : Variant) (v : Value) (h : InvV w)
    (hv : wfValue v = true) : InvV (updateVariant w v) := by
  obtain ⟨k, c, o, a, n⟩ := w
  cases h with
  | mk _ _ _ _ _ ho ha =>
  revert hv
  cases v with
  | vobj entries =>
      intro hv
      rw [show updateVariant (Variant.mk k c o a n) (Value.vobj entries)
            = Variant.mk k (c + 1)
                (some (addObjEntries (bumpTotal (o.getD makeObjectAgg)) entries))
                a n from by simp [updateVariant]]
      have hwfe : wfEntries entries = true ∧ (entries.map Prod.fst).Nodup := by
        rw [show wfValue (Value.vobj entries)
            = (decide ((entries.map Prod.fst).Nodup) && wfEntries entries) from by
          simp [wfValue]] at hv
        rw [Bool.and_eq_true, decide_eq_true_eq] at hv
        exact ⟨hv.2, hv.1⟩
      have hIH : ∀ p, p ∈ entries → ∀ fa, InvF fa → wfValue p.2 = true →
          InvF (addValueSample fa p.2) :=
        fun p hp fa hf hvp => invF_addVS fa p.2 hf hvp
      have hres : InvO (addObjEntries (bumpTotal (o.getD makeObjectAgg)) entries) := by
        cases hoget : o with
        | none =>
            simp only [hoget, Option.getD]
            rw [show bumpTotal makeObjectAgg = ObjectAgg.mk 1 [] from by
              simp [bumpTotal, makeObjectAgg, ObjectAgg.totalSeen,
                ObjectAgg.properties]]
            exact invO_addObjEntries 1 [] entries (by omega) hIH
              (fun key fa hget => by simp [getProp] at hget)
              hwfe.2 hwfe.1
        | some oa0 =>
            obtain ⟨ts0, props0⟩ := oa0
            have hInv := ho _ hoget
            cases hInv with
            | mk _ _ hbounds hinvs =>
                simp only [hoget, Option.getD]
                rw [show bumpTotal (ObjectAgg.mk ts0 props0)
                    = ObjectAgg.mk (ts0 + 1) props0 from by
                  simp [bumpTotal, ObjectAgg.totalSeen, ObjectAgg.properties]]
                refine invO_addObjEntries (ts0 + 1) props0 entries (by omega)
                  hIH (fun key fa hget => ?_) hwfe.2 hwfe.1
                have h1 := hbounds key fa hget
                have h2 := hinvs key fa hget
                refine ⟨h1.1, h2, ?_⟩
                split <;> omega
      refine .mk _ _ _ _ _ (fun oa' hoa' => ?_) ha
      cases hoa'
      exact hres
  | varr elems =>
      intro hv
      have hwfel : wfElems elems = true := by
        rw [show wfValue (Value.varr elems) = wfElems elems from by
          simp [wfValue]] at hv
        exact hv
      cases elems with
      | nil =>
          rw [show updateVariant (Variant.mk k c o a n) (Value.varr [])
                = Variant.mk k (c + 1) o
                    (some (ArrayAgg.mk ((a.getD makeArrayAgg).totalSeen + 1)
                      ((a.getD makeArrayAgg).emptyCount + 1)
                      (a.getD makeArrayAgg).items)) n from by
            simp [updateVariant]]
          refine .mk _ _ _ _ _ ho (fun aa' haa' => ?_)
          cases haa'
          cases hoget : a with
          | none =>
              simp only [hoget, Option.getD]
              exact .mk _ _ _
                (fun fa hget => by simp [makeArrayAgg, ArrayAgg.items] at hget)
                (fun fa hget => by simp [makeArrayAgg, ArrayAgg.items] at hget)
          | some aa0 =>
              obtain ⟨ts0, ec0, it0⟩ := aa0
              have hInv := ha _ hoget
              cases hInv with
              | mk _ _ _ hpc hinv =>
                  simp only [hoget, Option.getD]
                  exact .mk _ _ _
                    (fun fa hget => hpc fa (by
                      simp [ArrayAgg.items] at hget
                      simp [ArrayAgg.items, hget]))
                    (fun fa hget => hinv fa (by
                      simp [ArrayAgg.items] at hget
                      simp [ArrayAgg.items, hget]))
      | cons e es =>
          rw [show updateVariant (Variant.mk k c o a n) (Value.varr (e :: es))
                = Variant.mk k (c + 1) o
                    (some (ArrayAgg.mk ((a.getD makeArrayAgg).totalSeen + 1)
                      (a.getD makeArrayAgg).emptyCount
                      (some (addElems ((a.getD makeArrayAgg).items.getD makeFieldAgg)
                        (e :: es))))) n from by
            simp [updateVariant]]
          have hInvIt : InvF ((a.getD makeArrayAgg).items.getD makeFieldAgg) := by
            cases hoget : a with
            | none =>
                simp [hoget, Option.getD, makeArrayAgg, ArrayAgg.items]
                exact invF_make
            | some aa0 =>
                obtain ⟨ts0, ec0, it0⟩ := aa0
                have hInv := ha _ hoget
                cases hInv with
                | mk _ _ _ hpc hinv =>
                    cases hit : it0 with
                    | none =>
                        simp [hoget, hit, Option.getD, ArrayAgg.items]
                        exact invF_make
                    | some itf =>
                        simp only [hoget, hit, Option.getD, ArrayAgg.items]
                        exact hinv itf (by simp [ArrayAgg.items, hit])
          have hpcnew : 1 ≤ (addElems ((a.getD makeArrayAgg).items.getD
              makeFieldAgg) (e :: es)).presentCount := by
            rw [show addElems ((a.getD makeArrayAgg).items.getD makeFieldAgg)
                  (e :: es)
                = addElems (addValueSample
                    ((a.getD makeArrayAgg).items.getD makeFieldAgg) e) es from by
              simp [addElems]]
            have h1 := pc_addElems (addValueSample
              ((a.getD makeArrayAgg).items.getD makeFieldAgg) e) es
            rw [pc_addVS] at h1
            omega
          have hInvNew : InvF (addElems ((a.getD makeArrayAgg).items.getD
              makeFieldAgg) (e :: es)) :=
            invF_addElems _ (e :: es) hInvIt hwfel
          refine .mk _ _ _ _ _ ho (fun aa' haa' => ?_)
          cases haa'
          refine .mk _ _ _ (fun fa hget => ?_) (fun fa hget => ?_)
          · cases hget
            exact hpcnew
          · cases hget
            exact hInvNew
  | vnum q =>
      intro hv
      rw [show updateVariant (Variant.mk k c o a n) (Value.vnum q)
            = Variant.mk k (c + 1) o a
                (some ((n.getD true) && isIntegerNum q)) from by
          simp [updateVariant]]
      exact .mk _ _ _ _ _ ho ha
  | vnull =>
      intro hv
      rw [show updateVariant (Variant.mk k c o a n) Value.vnull
            = Variant.mk k (c + 1) o a n from by simp [updateVariant]]
      exact .mk _ _ _ _ _ ho ha
  | vbool b =>
      intro hv
      rw [show updateVariant (Variant.mk k c o a n) (Value.vbool b)
            = Variant.mk k (c + 1) o a n from by simp [updateVariant]]
      exact .mk _ _ _ _ _ ho ha
  | vstr s =>
      intro hv
      rw [show updateVariant (Variant.mk k c o a n) (Value.vstr s)
            = Variant.mk k (c + 1) o a n from by simp [updateVariant]]
      exact .mk _ _ _ _ _ ho ha
  | vtimestamp =>
      intro hv
      rw [show updateVariant (Variant.mk k c o a n) Value.vtimestamp
            = Variant.mk k (c + 1) o a n from by simp [updateVariant]]
      exact .mk _ _ _ _ _ ho ha
  | vgeopoint =>
      intro hv
      rw [show updateVariant (Variant.mk k c o a n) Value.vgeopoint
            = Variant.mk k (c + 1) o a n from by simp [updateVariant]]
      exact .mk _ _ _ _ _ ho ha
  | vreference =>
      intro hv
      rw [show updateVariant (Variant.mk k c o a n) Value.vreference
            = Variant.mk k (c + 1) o a n from by simp [updateVariant]]
      exact .mk _ _ _ _ _ ho ha
  | vbytes =>
      intro hv
      rw [show updateVariant (Variant.mk k c o a n) Value.vbytes
            = Variant.mk k (c + 1) o a n from by simp [updateVariant]]
      exact .mk _ _ _ _ _ ho ha
  | vother =>
      intro hv
      rw [show updateVariant (Variant.mk k c o a n) Value.vother
            = Variant.mk k (c + 1) o a n from by simp [updateVariant]]
      exact .mk _ _ _ _ _ ho ha
termination_by (sizeOf v, 1, 0)
decreasing_by
  all_goals simp_wf
  all_goals subst_vars
  all_goals try (have hsz := List.sizeOf_lt_of_mem hp ; obtain ⟨pk, pv⟩ := p ; simp at hsz ⊢ ; omega)
  all_goals try simp
  all_goals try omega

theorem invF_addElems (fa : FieldAgg) (elems : List Value) (hf : InvF fa)
    (hv : wfElems elems = true) : InvF (addElems fa elems) := by
  revert hv hf
  cases elems with
  | nil =>
      intro hf hv
      rw [show addElems fa [] = fa from by simp [addElems]]
      exact hf
  | cons e rest =>
      intro hf hv
      have hwf2 : wfValue e = true ∧ wfElems rest = true := by
        rw [show wfElems (e :: rest) = (wfValue e && wfElems rest) from by
          simp [wfElems]] at hv
        rw [Bool.and_eq_true] at hv
        exact hv
      rw [show addElems fa (e :: rest) = addElems (addValueSample fa e) rest
        from by simp [addElems]]
      exact invF_addElems (addValueSample fa e) rest
        (invF_addVS fa e hf hwf2.1) hwf2.2
termination_by (sizeOf elems, 0, 0)

end

/-- The fold of any well-formed document list from the fresh aggregate
satisfies the invariant. -/
theorem invO_foldDocs (docs : List (List (String × Value)))
    (hwf : docs.all wfDoc = true) : InvO (foldDocs docs) := by
  have main : ∀ (ds : List (List (String × Value))) (A : ObjectAgg),
      ds.all wfDoc = true → InvO A → InvO (ds.foldl addObjectSample A) := by
    intro ds
    induction ds with
    | nil => intro A _ hA; simpa [List.foldl] using hA
    | cons d rest ih =>
        intro A hall hA
        rw [List.all_cons, Bool.and_eq_true] at hall
        refine ih (addObjectSample A d) hall.2 ?_
        obtain ⟨ts, props⟩ := A
        cases hA with
        | mk _ _ hbounds hinvs =>
            rw [show addObjectSample (ObjectAgg.mk ts props) d
                = addObjEntries (ObjectAgg.mk (ts + 1) props) d from by
              simp [addObjectSample, ObjectAgg.totalSeen, ObjectAgg.properties]]
            have hdoc := hall.1
            rw [show wfDoc d = (decide ((d.map Prod.fst).Nodup) && wfEntries d)
              from by simp [wfDoc, wfValue]] at hdoc
            rw [Bool.and_eq_true, decide_eq_true_eq] at hdoc
            refine invO_addObjEntries (ts + 1) props d (by omega)
              (fun p hp fa hf hv => invF_addVS fa p.2 hf hv)
              (fun key fa hget => ?_) hdoc.1 hdoc.2
            have h1 := hbounds key fa hget
            have h2 := hinvs key fa hget
            refine ⟨h1.1, h2, ?_⟩
            split <;> omega
  exact main docs makeObjectAgg hwf invO_make


/-! ### Lemmas about the summarizer -/

/-- Every summary produced by `summarizeField` carries
`required = (presentCount == parentTotalSeen)`. -/
theorem summarizeField_required (fa : FieldAgg) (T : Nat) :
    (summarizeField fa T).required = some (fa.presentCount == T) := by
  obtain ⟨pc, vars⟩ := fa
  simp only [summarizeField, FieldAgg.presentCount]
  repeat' split
  all_goals simp [Summary.plain, Summary.required]


/-- Reachability from a field aggregate down to an object aggregate:
either directly through the `object` payload of one of its variants, or
through the `array` payload's shared `items` field aggregate. -/
inductive FieldToObj : FieldAgg → ObjectAgg → Prop where
  | viaObj : ∀ (fa : FieldAgg) (w : Variant) (oa : ObjectAgg),
      w ∈ fa.variants → w.objectAgg = some oa → FieldToObj fa oa
  | viaArr : ∀ (fa : FieldAgg) (w : Variant) (aa : ArrayAgg) (it : FieldAgg)
      (oa : ObjectAgg), w ∈ fa.variants → w.arrayAgg = some aa →
      aa.items = some it → FieldToObj it oa → FieldToObj fa oa

/-- Reachability between object aggregates: zero or more steps, each
going through a property's field aggregate and then down a
`FieldToObj` descent. -/
inductive ObjReach : ObjectAgg → ObjectAgg → Prop where
  | refl : ∀ r, ObjReach r r
  | step : ∀ (r oa : ObjectAgg) (key : String) (fa : FieldAgg) (oa2 : ObjectAgg),
      ObjReach r oa → getProp oa.properties key = some fa →
      FieldToObj fa oa2 → ObjReach r oa2

theorem invF_fieldToObj : ∀ {fa : FieldAgg} {oa : ObjectAgg},
    FieldToObj fa oa → InvF fa → InvO oa := by
  intro fa oa h
  induction h with
  | viaObj fa w oa hw ho =>
      intro hf
      obtain ⟨pc, vars⟩ := fa
      cases hf with
      | mk _ _ _ hvars =>
          have hv := hvars w (by simpa [FieldAgg.variants] using hw)
          cases hv with
          | mk k c o a n hoo _ =>
              exact hoo oa (by simpa [Variant.objectAgg] using ho)
  | viaArr fa w aa it oa hw ha hit _ ih =>
      intro hf
      obtain ⟨pc, vars⟩ := fa
      cases hf with
      | mk _ _ _ hvars =>
          have hv := hvars w (by simpa [FieldAgg.variants] using hw)
          cases hv with
          | mk k c o a n _ haa =>
              have hA := haa aa (by simpa [Variant.arrayAgg] using ha)
              cases hA with
              | mk ts ec items _ hinvs =>
                  exact ih (hinvs it (by simpa [ArrayAgg.items] using hit))

theorem invO_objReach : ∀ {r oa : ObjectAgg},
    ObjReach r oa → InvO r → InvO oa := by
  intro r oa h
  induction h with
  | refl => intro hr; exact hr
  | step oa key fa oa2 _ hget hfo ih =>
      intro hr
      have hoa := ih hr
      obtain ⟨ts, props⟩ := oa
      cases hoa with
      | mk _ _ _ hinvs =>
          exact invF_fieldToObj hfo
            (hinvs key fa (by simpa [ObjectAgg.properties] using hget))

/-- Property lookup in a summarized object returns exactly the summary
of the corresponding field aggregate. -/
theorem getProp_summarizeProps (props : List (String × FieldAgg)) (T : Nat)
    (key : String) :
    getProp (summarizeProps props T) key
      = (getProp props key).map (fun fa => summarizeField fa T) := by
  induction props with
  | nil => simp [summarizeProps, getProp]
  | cons p rest ih =>
      obtain ⟨k, fa⟩ := p
      by_cases hk : k = key
      · subst hk
        simp [summarizeProps, getProp]
      · simp [summarizeProps, getProp, hk, ih]

/-- Folding any list of well-formed sampled values into a field
aggregate preserves the structural invariant. -/
theorem invF_foldValues (vs : List Value) (A : FieldAgg)
    (hvs : vs.all wfValue = true) (hA : InvF A) :
    InvF (vs.foldl addValueSample A) := by
  induction vs generalizing A with
  | nil => simpa using hA
  | cons e rest ih =>
      rw [List.all_cons, Bool.and_eq_true] at hvs
      exact ih (addValueSample A e) hvs.2 (invF_addVS A e hA hvs.1)


/-! ### Claims -/

/-- C1: for every multiset of documents and every partition of it into two
groups, folding all documents into a fresh object aggregate via
`addObjectSample` yields, for every field path, the same `presentCount`,
the same per-kind variant count, and the same `integerOnly` flag (the AND
of the merged flags) as merging the aggregates obtained by folding the two
groups separately; the canonical observation trees (`normO`) record
exactly those per-path observables and `addNO` is the spec-modelled merge.
In particular the fold is order-independent. -/
theorem monoid_law_fold_merge (all g1 g2 : List (List (String × Value)))
    (hpart : all.Perm (g1 ++ g2)) :
    normO (foldDocs all) = addNO (normO (foldDocs g1)) (normO (foldDocs g2)) := by
  rw [normO_foldDocs_perm hpart, normO_foldDocs_append]

theorem monoid_law_fold_merge_witness :
    ([[("b", Value.vbool true)], [("a", Value.vstr "x")]]
        : List (List (String × Value))).Perm
      ([[("a", Value.vstr "x")]] ++ [[("b", Value.vbool true)]])
    ∧ normO (foldDocs [[("b", Value.vbool true)], [("a", Value.vstr "x")]])
        = addNO (normO (foldDocs [[("a", Value.vstr "x")]]))
            (normO (foldDocs [[("b", Value.vbool true)]])) :=
  ⟨List.Perm.swap _ _ _,
    monoid_law_fold_merge _ _ _ (List.Perm.swap _ _ _)⟩

/-- C2: for every field of any aggregate reachable from a document fold
(the top level itself via `ObjReach.refl`, and nested object aggregates
via `ObjReach` steps), the summary's `required` flag is `true` iff the
field's `presentCount` equals the enclosing `totalSeen` and that total is
strictly positive; and `profileFromAgg` exposes exactly
`summarizeField fa agg.totalSeen` for every top-level field `fa`. -/
theorem required_iff_full_presence :
    (∀ (docs : List (List (String × Value))), docs.all wfDoc = true →
      ∀ (oa : ObjectAgg), ObjReach (foldDocs docs) oa →
      ∀ (key : String) (fa : FieldAgg), getProp oa.properties key = some fa →
        ((summarizeField fa oa.totalSeen).required = some true
          ↔ (fa.presentCount = oa.totalSeen ∧ 0 < oa.totalSeen)))
    ∧ (∀ (oa : ObjectAgg) (key : String),
        getProp (profileFromAgg oa).fields key
          = (getProp oa.properties key).map (fun fa => summarizeField fa oa.totalSeen)) := by
  constructor
  · intro docs hwf oa hreach key fa hget
    have hInv : InvO oa := invO_objReach hreach (invO_foldDocs docs hwf)
    obtain ⟨ts, props⟩ := oa
    cases hInv with
    | mk _ _ hbounds _ =>
        have hb := hbounds key fa (by simpa [ObjectAgg.properties] using hget)
        rw [summarizeField_required]
        simp only [ObjectAgg.totalSeen]
        constructor
        · intro h
          have heq : fa.presentCount = ts := by
            have h2 := Option.some.inj h
            simpa using h2
          refine ⟨heq, ?_⟩
          omega
        · intro h
          simp [h.1]
  · intro oa key
    simp [profileFromAgg, getProp_summarizeProps]

unseal wfValue wfEntries wfElems addValueSample addToVariants updateVariant addObjEntries addElems in
theorem required_iff_full_presence_witness :
    (([[("a", Value.vbool true)]] : List (List (String × Value))).all wfDoc = true
      ∧ ObjReach (foldDocs [[("a", Value.vbool true)]])
          (foldDocs [[("a", Value.vbool true)]])
      ∧ getProp (foldDocs [[("a", Value.vbool true)]]).properties "a"
          = some (FieldAgg.mk 1 [Variant.mk Kind.boolean 1 none none none]))
    ∧ ((summarizeField (FieldAgg.mk 1 [Variant.mk Kind.boolean 1 none none none])
          (foldDocs [[("a", Value.vbool true)]]).totalSeen).required = some true
        ↔ ((FieldAgg.mk 1 [Variant.mk Kind.boolean 1 none none none]).presentCount
              = (foldDocs [[("a", Value.vbool true)]]).totalSeen
            ∧ 0 < (foldDocs [[("a", Value.vbool true)]]).totalSeen)) :=
  ⟨⟨by rfl, ObjReach.refl _, by rfl⟩,
    required_iff_full_presence.1 _ (by rfl) _ (ObjReach.refl _) "a" _ (by rfl)⟩

/-- C4: starting from freshly created empty aggregates, after any sequence
of `addObjectSample` calls (document fold) and any sequence of
`addValueSample` calls (value fold) on well-formed sampled values, every
field aggregate in the resulting trees has `presentCount` equal to the sum
of its variants' counts, and every object aggregate has
`properties[k].presentCount ≤ totalSeen` for every key `k` (the `InvO` /
`InvF` invariants). -/
theorem aggregate_invariants_hold (docs : List (List (String × Value)))
    (vs : List Value) (hdocs : docs.all wfDoc = true)
    (hvs : vs.all wfValue = true) :
    InvO (foldDocs docs) ∧ InvF (vs.foldl addValueSample makeFieldAgg) :=
  ⟨invO_foldDocs docs hdocs, invF_foldValues vs makeFieldAgg hvs invF_make⟩

unseal wfValue wfEntries wfElems in
theorem aggregate_invariants_hold_witness :
    (([[("a", Value.vnum 1)], [("a", Value.vnull)], []]
        : List (List (String × Value))).all wfDoc = true
      ∧ ([Value.vbool true, Value.vstr "x"] : List Value).all wfValue = true)
    ∧ (InvO (foldDocs [[("a", Value.vnum 1)], [("a", Value.vnull)], []])
      ∧ InvF ([Value.vbool true, Value.vstr "x"].foldl addValueSample makeFieldAgg)) :=
  ⟨⟨by rfl, by rfl⟩,
    aggregate_invariants_hold _ _ (by rfl) (by rfl)⟩


/-- Union branch of `summarizeField`: two or more non-null variants. -/
theorem summarizeField_union_eq (pc T : Nat) (vars : List Variant)
    (v v2 : Variant) (rest : List Variant)
    (hfilter : vars.filter (fun w => !(w.kind == Kind.null)) = v :: v2 :: rest) :
    summarizeField (.mk pc vars) T =
      .mk "union" none (some (jsSortStrings ((v :: v2 :: rest).map friendlyTypeName)))
        (some (pc == T)) (some (vars.any (fun w => w.kind == Kind.null)))
        none none none := by
  simp only [summarizeField]
  split
  · rename_i heq
    rw [hfilter] at heq
    cases heq
  · rename_i w w2 wrest heq
    rw [hfilter] at heq
    obtain ⟨h1, h2, h3⟩ : v = w ∧ v2 = w2 ∧ rest = wrest := by
      simpa using heq
    subst h1; subst h2; subst h3
    rfl
  · rename_i w heq
    rw [hfilter] at heq
    simp at heq

/-- Object branch of `summarizeField`: a single non-null variant of kind
`object` carrying an object aggregate. -/
theorem summarizeField_object_eq (pc T c : Nat) (vars : List Variant)
    (oa : ObjectAgg) (a : Option ArrayAgg) (n : Option Bool)
    (hfilter : vars.filter (fun w => !(w.kind == Kind.null))
        = [Variant.mk Kind.object c (some oa) a n]) :
    summarizeField (.mk pc vars) T =
      (match maybeAsMap oa with
       | some mapKind =>
           Summary.plain ("map<string, " ++ kindName mapKind ++ ">")
             (pc == T) (vars.any (fun w => w.kind == Kind.null))
       | none =>
           .mk "object" none none (some (pc == T))
             (some (vars.any (fun w => w.kind == Kind.null))) none
             (if ((oa.properties.filter
                   (fun p => p.2.presentCount == oa.totalSeen)).map
                     (fun p => p.1)).isEmpty
              then none
              else some ((oa.properties.filter
                   (fun p => p.2.presentCount == oa.totalSeen)).map
                     (fun p => p.1)))
             (some (summarizeProps oa.properties oa.totalSeen))) := by
  simp only [summarizeField]
  split
  · rename_i heq
    rw [hfilter] at heq
    cases heq
  · rename_i w w2 wrest heq
    rw [hfilter] at heq
    simp at heq
  · rename_i w heq
    rw [hfilter] at heq
    have hw : w = Variant.mk Kind.object c (some oa) a n := by
      simpa using heq.symm
    subst hw
    rfl

/-- Array branch of `summarizeField`: a single non-null variant of kind
`array`. -/
theorem summarizeField_array_eq (pc T c : Nat) (vars : List Variant)
    (o : Option ObjectAgg) (a : Option ArrayAgg) (n : Option Bool)
    (hfilter : vars.filter (fun w => !(w.kind == Kind.null))
        = [Variant.mk Kind.array c o a n]) :
    summarizeField (.mk pc vars) T =
      .mk "array" none none (some (pc == T))
        (some (vars.any (fun w => w.kind == Kind.null)))
        (some (match a with
               | some aa =>
                   (match aa.items with
                    | some it =>
                        summarizeField it
                          (if it.presentCount == 0 then 1 else it.presentCount)
                    | none => Summary.anyNode)
               | none => Summary.anyNode)) none none := by
  simp only [summarizeField]
  split
  · rename_i heq
    rw [hfilter] at heq
    cases heq
  · rename_i w w2 wrest heq
    rw [hfilter] at heq
    simp at heq
  · rename_i w heq
    rw [hfilter] at heq
    have hw : w = Variant.mk Kind.array c o a n := by
      simpa using heq.symm
    subst hw
    cases a with
    | none => rfl
    | some aa =>
        obtain ⟨ats, aec, aitems⟩ := aa
        cases aitems with
        | none => rfl
        | some it => rfl

/-- The keys of a summarized property list are the keys of the property
list, in order. -/
theorem summarizeProps_keys (props : List (String × FieldAgg)) (T : Nat) :
    (summarizeProps props T).map Prod.fst = props.map Prod.fst := by
  induction props with
  | nil => simp [summarizeProps]
  | cons p rest ih =>
      obtain ⟨k, fa⟩ := p
      simp [summarizeProps, ih]



/-- Unfolding equations for `singleScalarKind` by variant-list shape. -/
theorem singleScalarKind_nil (pc : Nat) :
    singleScalarKind (.mk pc []) = none := rfl

theorem singleScalarKind_single (pc : Nat) (v : Variant) :
    singleScalarKind (.mk pc [v])
      = (if v.kind = Kind.boolean ∨ v.kind = Kind.string ∨ v.kind = Kind.number
         then some v.kind else none) := rfl

theorem singleScalarKind_multi (pc : Nat) (v w : Variant) (rest : List Variant) :
    singleScalarKind (.mk pc (v :: w :: rest)) = none := rfl

/-- `singleScalarKind` succeeds exactly on a single-variant aggregate of
a scalar kind. -/
theorem singleScalarKind_eq_some_iff (fa : FieldAgg) (K : Kind) :
    singleScalarKind fa = some K ↔
      ((K = Kind.boolean ∨ K = Kind.string ∨ K = Kind.number)
        ∧ fa.variants.map Variant.kind = [K]) := by
  obtain ⟨pc, vars⟩ := fa
  rcases vars with _ | ⟨v, _ | ⟨w, rest⟩⟩
  · rw [singleScalarKind_nil]
    simp [FieldAgg.variants]
  · rw [singleScalarKind_single]
    simp only [FieldAgg.variants]
    by_cases hsc : v.kind = Kind.boolean ∨ v.kind = Kind.string ∨ v.kind = Kind.number
    · rw [if_pos hsc]
      constructor
      · intro h
        have hk : v.kind = K := by simpa using h
        subst hk
        exact ⟨hsc, by simp⟩
      · intro ⟨_, h2⟩
        have hk : v.kind = K := by simpa using h2
        simp [hk]
    · rw [if_neg hsc]
      constructor
      · intro h; simp at h
      · intro ⟨h1, h2⟩
        have hk : v.kind = K := by simpa using h2
        exact absurd (hk ▸ h1) hsc
  · rw [singleScalarKind_multi]
    simp [FieldAgg.variants]

/-- If every property maps to the same scalar kind, `mapM` returns the
constant list. -/
theorem mapM_singleScalar_const (props : List (String × FieldAgg)) (K : Kind)
    (h : ∀ p ∈ props, singleScalarKind p.2 = some K) :
    props.mapM (fun p => singleScalarKind p.2)
      = some (props.map (fun _ => K)) := by
  induction props with
  | nil => rfl
  | cons p rest ih =>
      rw [List.mapM_cons, h p (List.mem_cons_self p rest),
        ih (fun q hq => h q (List.mem_cons_of_mem p hq))]
      rfl

/-- A successful `mapM` of `singleScalarKind` yields an all-`K` list iff
every property individually yields `K`. -/
theorem mapM_singleScalar_all (props : List (String × FieldAgg))
    (l : List Kind) (K : Kind)
    (h : props.mapM (fun p => singleScalarKind p.2) = some l) :
    (l.all (fun k => k == K) = true
      ↔ ∀ p ∈ props, singleScalarKind p.2 = some K) := by
  induction props generalizing l with
  | nil =>
      rw [List.mapM_nil] at h
      have hl : l = [] := by
        have := h
        simp only [Option.pure_def, Option.some.injEq] at this
        exact this.symm
      subst hl
      simp
  | cons p rest ih =>
      rw [List.mapM_cons] at h
      cases hp : singleScalarKind p.2 with
      | none => rw [hp] at h; simp at h
      | some k =>
          rw [hp] at h
          cases hr : rest.mapM (fun p => singleScalarKind p.2) with
          | none => rw [hr] at h; simp at h
          | some ks =>
              rw [hr] at h
              have hl : l = k :: ks := by
                simp only [Option.pure_def, Option.bind_eq_bind,
                  Option.some_bind, Option.some.injEq] at h
                exact h.symm
              subst hl
              simp only [List.all_cons, Bool.and_eq_true, ih ks hr,
                List.forall_mem_cons, hp]
              constructor
              · intro ⟨h1, h2⟩
                exact ⟨by simpa using h1, h2⟩
              · intro ⟨h1, h2⟩
                exact ⟨by simpa using h1, h2⟩

/-- Characterization of the dictionary heuristic `maybeAsMap`: it
returns `some K` exactly when `K` is scalar, the property map is
non-empty, no property is present in every observed object, and every
property was observed with exactly the single kind `K`. -/
theorem maybeAsMap_eq_some_iff (oa : ObjectAgg) (K : Kind) :
    maybeAsMap oa = some K ↔
      ((K = Kind.boolean ∨ K = Kind.string ∨ K = Kind.number)
        ∧ oa.properties ≠ []
        ∧ (∀ p ∈ oa.properties, p.2.presentCount ≠ oa.totalSeen)
        ∧ (∀ p ∈ oa.properties, p.2.variants.map Variant.kind = [K])) := by
  obtain ⟨ts, props⟩ := oa
  simp only [maybeAsMap, ObjectAgg.properties, ObjectAgg.totalSeen]
  split
  · rename_i hemp
    have hnil : props = [] := by simpa [List.isEmpty_iff] using hemp
    subst hnil
    simp
  · rename_i hemp
    have hne : props ≠ [] := by simpa [List.isEmpty_iff] using hemp
    split
    · rename_i hany
      simp only [List.any_eq_true] at hany
      obtain ⟨p, hp, hpc⟩ := hany
      constructor
      · intro h; simp at h
      · intro ⟨_, _, ha, _⟩
        exact absurd (by simpa using hpc) (ha p hp)
    · rename_i hany
      have hforall : ∀ p ∈ props, p.2.presentCount ≠ ts := by
        intro p hp
        intro hc
        exact hany (List.any_eq_true.mpr ⟨p, hp, by simpa using hc⟩)
      split
      · rename_i hm
        constructor
        · intro h; simp at h
        · intro ⟨hsc, _, _, hb⟩
          have hall : ∀ p ∈ props, singleScalarKind p.2 = some K := fun p hp =>
            (singleScalarKind_eq_some_iff p.2 K).mpr ⟨hsc, hb p hp⟩
          rw [mapM_singleScalar_const props K hall] at hm
          cases hm
      · rename_i hm
        constructor
        · intro h; simp at h
        · intro ⟨hsc, _, _, hb⟩
          have hall : ∀ p ∈ props, singleScalarKind p.2 = some K := fun p hp =>
            (singleScalarKind_eq_some_iff p.2 K).mpr ⟨hsc, hb p hp⟩
          rw [mapM_singleScalar_const props K hall] at hm
          rcases props with _ | ⟨q, qrest⟩
          · exact absurd rfl hne
          · simp at hm
      · rename_i first lrest hm
        split
        · rename_i hall
          have hfull : ((first :: lrest).all (fun k => k == first)) = true := by
            simp only [List.all_cons, Bool.and_eq_true]
            exact ⟨by simp, hall⟩
          have heach : ∀ p ∈ props, singleScalarKind p.2 = some first :=
            (mapM_singleScalar_all props (first :: lrest) first hm).mp hfull
          constructor
          · intro h
            have hK : first = K := by simpa using h
            subst hK
            rcases props with _ | ⟨q, qrest⟩
            · exact absurd rfl hne
            · have hq := heach q (List.mem_cons_self q qrest)
              have hq2 := (singleScalarKind_eq_some_iff q.2 first).mp hq
              exact ⟨hq2.1, hne, hforall, fun p hp =>
                ((singleScalarKind_eq_some_iff p.2 first).mp (heach p hp)).2⟩
          · intro ⟨hsc, _, _, hb⟩
            have hallK : ∀ p ∈ props, singleScalarKind p.2 = some K :=
              fun p hp =>
                (singleScalarKind_eq_some_iff p.2 K).mpr ⟨hsc, hb p hp⟩
            rw [mapM_singleScalar_const props K hallK] at hm
            rcases props with _ | ⟨q, qrest⟩
            · exact absurd rfl hne
            · have hfK : first = K := by
                have := hm
                simp only [Option.some.injEq, List.map_cons] at this
                exact ((List.cons.injEq _ _ _ _).mp this |>.1).symm
              simp [hfK]
        · rename_i hall
          constructor
          · intro h; simp at h
          · intro ⟨hsc, _, _, hb⟩
            have hallK : ∀ p ∈ props, singleScalarKind p.2 = some K :=
              fun p hp =>
                (singleScalarKind_eq_some_iff p.2 K).mpr ⟨hsc, hb p hp⟩
            have hK := (mapM_singleScalar_all props (first :: lrest) K hm).mpr hallK
            rw [List.all_cons, Bool.and_eq_true] at hK
            have hfK : first = K := by simpa using hK.1
            refine absurd ?_ hall
            subst hfK
            exact hK.2


/-- `jsSortStrings` output equals any sorted list it is a permutation of. -/
theorem jsSortStrings_eq_of_sorted (l m : List String) (hp : l.Perm m)
    (hs : m.Sorted (· ≤ ·)) : jsSortStrings l = m :=
  List.eq_of_perm_of_sorted ((List.mergeSort_perm l _).trans hp)
    (List.sorted_mergeSort' l) hs

/-- C7: the kind classifier `detectKind` is a total deterministic
function returning exactly one member of the closed `Kind` enumeration
for every value, classifying null, timestamp, geopoint, reference,
bytes, array, string, boolean, number and plain objects as themselves
and anything else as `unknown`; in particular a timestamp or geopoint
value is never classified as `object`. -/
theorem detect_kind_total_and_ordered :
    (∀ v : Value, ∃! k : Kind, detectKind v = k)
    ∧ detectKind Value.vnull = Kind.null
    ∧ detectKind Value.vtimestamp = Kind.timestamp
    ∧ detectKind Value.vgeopoint = Kind.geopoint
    ∧ detectKind Value.vreference = Kind.reference
    ∧ detectKind Value.vbytes = Kind.bytes
    ∧ (∀ l, detectKind (Value.varr l) = Kind.array)
    ∧ (∀ s, detectKind (Value.vstr s) = Kind.string)
    ∧ (∀ b, detectKind (Value.vbool b) = Kind.boolean)
    ∧ (∀ q, detectKind (Value.vnum q) = Kind.number)
    ∧ (∀ e, detectKind (Value.vobj e) = Kind.object)
    ∧ detectKind Value.vother = Kind.unknown
    ∧ detectKind Value.vtimestamp ≠ Kind.object
    ∧ detectKind Value.vgeopoint ≠ Kind.object :=
  ⟨fun v => ⟨detectKind v, rfl, fun _ hk => hk.symm⟩, rfl, rfl, rfl, rfl, rfl,
    fun _ => rfl, fun _ => rfl, fun _ => rfl, fun _ => rfl, fun _ => rfl, rfl,
    by decide, by decide⟩

/-- The two-property all-boolean property list used by the spec's
dictionary-heuristic examples. -/
def c3props : List (String × FieldAgg) :=
  [("a", .mk 3 [.mk Kind.boolean 3 none none none]),
   ("b", .mk 3 [.mk Kind.boolean 3 none none none])]

unseal summarizeField summarizeProps in
/-- C3 counterexample: an object aggregate with no properties satisfies
both stated conditions vacuously (no property has full presence, and
every property trivially has the single scalar kind boolean), yet its
summary has type `object`, not `map<string, boolean>`; the claim's iff
fails without requiring at least one property. -/
theorem map_heuristic_counterexample :
    (∀ p, p ∈ (ObjectAgg.mk 1 ([] : List (String × FieldAgg))).properties →
        p.2.presentCount ≠ (ObjectAgg.mk 1 []).totalSeen)
    ∧ (∀ p, p ∈ (ObjectAgg.mk 1 ([] : List (String × FieldAgg))).properties →
        p.2.variants.map Variant.kind = [Kind.boolean])
    ∧ (summarizeField (FieldAgg.mk 1
          [Variant.mk Kind.object 1 (some (ObjectAgg.mk 1 [])) none none]) 1).type
        = "object"
    ∧ ("object" : String) ≠ "map<string, " ++ kindName Kind.boolean ++ ">" := by
  refine ⟨?_, ?_, rfl, by decide⟩
  · intro p hp
    simp [ObjectAgg.properties] at hp
  · intro p hp
    simp [ObjectAgg.properties] at hp

unseal summarizeField summarizeProps in
/-- C3 (amended): the dictionary heuristic fires iff the object has at
least one property, no property is fully present, and all properties
share one observed scalar kind; a field summarized from a single
non-null object variant then gets the `map<string, K>` type, and
otherwise a fixed-shape `object` summary with one sub-summary per known
key.  The spec's two concrete examples hold: boolean properties `a`,
`b` (3 occurrences each) give `map<string, boolean>` under
`totalSeen = 5` and a fixed-shape object with both keys required under
`totalSeen = 3`. -/
theorem map_heuristic_amended :
    (∀ (oa : ObjectAgg) (K : Kind),
        maybeAsMap oa = some K
          ↔ ((K = Kind.boolean ∨ K = Kind.string ∨ K = Kind.number)
            ∧ oa.properties ≠ []
            ∧ (∀ p ∈ oa.properties, p.2.presentCount ≠ oa.totalSeen)
            ∧ (∀ p ∈ oa.properties, p.2.variants.map Variant.kind = [K])))
    ∧ (∀ (pc T c : Nat) (vars : List Variant) (oa : ObjectAgg)
        (a : Option ArrayAgg) (n : Option Bool),
        vars.filter (fun w => !(w.kind == Kind.null))
            = [Variant.mk Kind.object c (some oa) a n] →
          (∀ K, maybeAsMap oa = some K →
            (summarizeField (.mk pc vars) T).type
              = "map<string, " ++ kindName K ++ ">")
          ∧ (maybeAsMap oa = none →
              (summarizeField (.mk pc vars) T).type = "object"
              ∧ (summarizeField (.mk pc vars) T).fields
                  = some (summarizeProps oa.properties oa.totalSeen)
              ∧ (summarizeProps oa.properties oa.totalSeen).map Prod.fst
                  = oa.properties.map Prod.fst))
    ∧ (summarizeField (FieldAgg.mk 5 [Variant.mk Kind.object 5
          (some (ObjectAgg.mk 5 c3props)) none none]) 5).type
        = "map<string, boolean>"
    ∧ ((summarizeField (FieldAgg.mk 3 [Variant.mk Kind.object 3
          (some (ObjectAgg.mk 3 c3props)) none none]) 3).type = "object"
      ∧ (summarizeField (FieldAgg.mk 3 [Variant.mk Kind.object 3
          (some (ObjectAgg.mk 3 c3props)) none none]) 3).requiredFields
          = some ["a", "b"]) := by
  refine ⟨maybeAsMap_eq_some_iff, ?_, rfl, rfl, rfl⟩
  intro pc T c vars oa a n hfilter
  rw [summarizeField_object_eq pc T c vars oa a n hfilter]
  constructor
  · intro K hK
    rw [hK]
    rfl
  · intro hnone
    rw [hnone]
    exact ⟨rfl, rfl, summarizeProps_keys _ _⟩

unseal summarizeField summarizeProps in
theorem map_heuristic_amended_witness :
    (([Variant.mk Kind.object 5 (some (ObjectAgg.mk 5 c3props)) none none]
        : List Variant).filter (fun w => !(w.kind == Kind.null))
        = [Variant.mk Kind.object 5 (some (ObjectAgg.mk 5 c3props)) none none])
    ∧ ((∀ K, maybeAsMap (ObjectAgg.mk 5 c3props) = some K →
          (summarizeField (.mk 5 [Variant.mk Kind.object 5
              (some (ObjectAgg.mk 5 c3props)) none none]) 5).type
            = "map<string, " ++ kindName K ++ ">")
      ∧ (maybeAsMap (ObjectAgg.mk 5 c3props) = none →
          (summarizeField (.mk 5 [Variant.mk Kind.object 5
              (some (ObjectAgg.mk 5 c3props)) none none]) 5).type = "object"
          ∧ (summarizeField (.mk 5 [Variant.mk Kind.object 5
              (some (ObjectAgg.mk 5 c3props)) none none]) 5).fields
              = some (summarizeProps (ObjectAgg.mk 5 c3props).properties
                  (ObjectAgg.mk 5 c3props).totalSeen)
          ∧ (summarizeProps (ObjectAgg.mk 5 c3props).properties
              (ObjectAgg.mk 5 c3props).totalSeen).map Prod.fst
              = (ObjectAgg.mk 5 c3props).properties.map Prod.fst)) :=
  ⟨rfl, map_heuristic_amended.2.1 5 5 5 _ _ none none rfl⟩

/-- The number-and-string field aggregate used to refute C8. -/
def c8fa : FieldAgg :=
  .mk 2 [Variant.mk Kind.number 1 none none (some true),
         Variant.mk Kind.string 1 none none none]

unseal summarizeField summarizeProps in
/-- C8 counterexample: a field observed once as an integer number and
once as a string summarizes with union member list
`["integer", "string"]` (friendly type names), which differs from the
alphabetically sorted kind names `["number", "string"]`. -/
theorem union_kind_names_counterexample :
    (summarizeField c8fa 2).type = "union"
    ∧ (summarizeField c8fa 2).union = some ["integer", "string"]
    ∧ (c8fa.variants.filter (fun w => !(w.kind == Kind.null))).map
        (fun w => kindName w.kind) = ["number", "string"]
    ∧ (["integer", "string"] : List String) ≠ ["number", "string"] := by
  refine ⟨rfl, ?_, rfl, by decide⟩
  have h : (summarizeField c8fa 2).union
      = some (jsSortStrings ["integer", "string"]) := rfl
  rw [h, jsSortStrings_eq_of_sorted ["integer", "string"] ["integer", "string"]
    (List.Perm.refl _) ?_]
  simp only [List.sorted_cons, List.mem_singleton, forall_eq,
    List.sorted_singleton, and_true]
  rw [String.le_iff_toList_le]
  decide

/-- C8 (amended): for every field whose variant set contains more than
one non-null variant, `summarizeField` returns a summary of type
`union` whose member list is an alphabetically sorted permutation of
the friendly type names (`friendlyTypeName`) of the non-null variants
(not of the raw kind names). -/
theorem union_sorted_friendly_names (fa : FieldAgg) (T : Nat)
    (v v2 : Variant) (rest : List Variant)
    (hfilter : fa.variants.filter (fun w => !(w.kind == Kind.null))
        = v :: v2 :: rest) :
    (summarizeField fa T).type = "union"
    ∧ ∃ l, (summarizeField fa T).union = some l
        ∧ l.Perm ((v :: v2 :: rest).map friendlyTypeName)
        ∧ l.Sorted (· ≤ ·) := by
  obtain ⟨pc, vars⟩ := fa
  simp only [FieldAgg.variants] at hfilter
  rw [summarizeField_union_eq pc T vars v v2 rest hfilter]
  exact ⟨rfl, jsSortStrings ((v :: v2 :: rest).map friendlyTypeName), rfl,
    List.mergeSort_perm _ _, List.sorted_mergeSort' _⟩

theorem union_sorted_friendly_names_witness :
    (c8fa.variants.filter (fun w => !(w.kind == Kind.null))
        = [Variant.mk Kind.number 1 none none (some true),
           Variant.mk Kind.string 1 none none none])
    ∧ ((summarizeField c8fa 2).type = "union"
      ∧ ∃ l, (summarizeField c8fa 2).union = some l
          ∧ l.Perm ([Variant.mk Kind.number 1 none none (some true),
              Variant.mk Kind.string 1 none none none].map friendlyTypeName)
          ∧ l.Sorted (· ≤ ·)) :=
  ⟨rfl, union_sorted_friendly_names c8fa 2 _ _ [] rfl⟩

/-- C10: for a field summarized from a single non-null variant of array
kind: if the variant carries no array payload or no shared items
aggregate (no non-empty array was observed), the summary's items node
is exactly `{ type: "any" }`; otherwise (under the fold invariant) the
items sub-summary is the items aggregate summarized against its own
`presentCount`, so its `required` flag is always `true`. -/
theorem array_items_any_or_required (fa : FieldAgg) (T : Nat) (hf : InvF fa)
    (c : Nat) (o : Option ObjectAgg) (a : Option ArrayAgg) (n : Option Bool)
    (hfilter : fa.variants.filter (fun w => !(w.kind == Kind.null))
        = [Variant.mk Kind.array c o a n]) :
    (a = none → (summarizeField fa T).items = some Summary.anyNode)
    ∧ (∀ aa, a = some aa → aa.items = none →
        (summarizeField fa T).items = some Summary.anyNode)
    ∧ (∀ aa it, a = some aa → aa.items = some it →
        (summarizeField fa T).items
            = some (summarizeField it it.presentCount)
          ∧ (summarizeField it it.presentCount).required = some true) := by
  obtain ⟨pc, vars⟩ := fa
  simp only [FieldAgg.variants] at hfilter
  rw [summarizeField_array_eq pc T c vars o a n hfilter]
  refine ⟨?_, ?_, ?_⟩
  · intro ha
    subst ha
    rfl
  · intro aa ha hit
    subst ha
    simp only [Summary.items]
    rw [hit]
  · intro aa it ha hit
    subst ha
    have hmem : Variant.mk Kind.array c o (some aa) n ∈ vars :=
      List.mem_of_mem_filter (hfilter ▸ List.mem_singleton_self _)
    cases hf with
    | mk _ _ _ hvars =>
        have hv := hvars _ hmem
        cases hv with
        | mk _ _ _ _ _ _ haa =>
            have hA := haa aa rfl
            cases hA with
            | mk ats aec aitems hpc2 _ =>
                have hit2 : aitems = some it := by
                  simpa [ArrayAgg.items] using hit
                have hpos := hpc2 it hit2
                simp only [Summary.items, ArrayAgg.items]
                rw [hit2]
                have h0 : (it.presentCount == 0) = false := by
                  simp only [beq_eq_false_iff_ne, ne_eq]
                  omega
                refine ⟨?_, ?_⟩
                · show some (summarizeField it
                      (if it.presentCount == 0 then 1 else it.presentCount))
                    = some (summarizeField it it.presentCount)
                  rw [if_neg (by simp [h0])]
                · rw [summarizeField_required]
                  simp

/-- The array-of-boolean field aggregate used to witness C10. -/
def c10fa : FieldAgg :=
  [Value.varr [Value.vbool true]].foldl addValueSample makeFieldAgg

unseal wfValue wfEntries wfElems addValueSample addToVariants updateVariant addObjEntries addElems in
theorem array_items_any_or_required_witness :
    (InvF c10fa
      ∧ c10fa.variants.filter (fun w => !(w.kind == Kind.null))
          = [Variant.mk Kind.array 1 none (some (ArrayAgg.mk 1 0
              (some (FieldAgg.mk 1 [Variant.mk Kind.boolean 1 none none none]))))
              none])
    ∧ ((some (ArrayAgg.mk 1 0
          (some (FieldAgg.mk 1 [Variant.mk Kind.boolean 1 none none none])))
          = (none : Option ArrayAgg) →
        (summarizeField c10fa 1).items = some Summary.anyNode)
      ∧ (∀ aa, some (ArrayAgg.mk 1 0
            (some (FieldAgg.mk 1 [Variant.mk Kind.boolean 1 none none none])))
            = some aa → aa.items = none →
          (summarizeField c10fa 1).items = some Summary.anyNode)
      ∧ (∀ aa it, some (ArrayAgg.mk 1 0
            (some (FieldAgg.mk 1 [Variant.mk Kind.boolean 1 none none none])))
            = some aa → aa.items = some it →
          (summarizeField c10fa 1).items
              = some (summarizeField it it.presentCount)
            ∧ (summarizeField it it.presentCount).required = some true)) :=
  ⟨⟨invF_foldValues _ _ (by rfl) invF_make, by rfl⟩,
    array_items_any_or_required c10fa 1
      (invF_foldValues _ _ (by rfl) invF_make) 1 none
      (some (ArrayAgg.mk 1 0
        (some (FieldAgg.mk 1 [Variant.mk Kind.boolean 1 none none none]))))
      none (by rfl)⟩


/-! ### Association-list and pass-1 bookkeeping lemmas -/

theorem getProp_mem {κ α : Type} [DecidableEq κ] (l : List (κ × α)) (k : κ)
    (x : α) (h : getProp l k = some x) : (k, x) ∈ l := by
  induction l with
  | nil => simp [getProp] at h
  | cons hd rest ih =>
      obtain ⟨k', y⟩ := hd
      by_cases hk : k' = k
      · subst hk
        rw [show getProp ((k', y) :: rest) k' = some y from by simp [getProp]]
          at h
        cases h
        exact List.mem_cons_self _ _
      · rw [show getProp ((k', y) :: rest) k = getProp rest k from by
          simp [getProp, hk]] at h
        exact List.mem_cons_of_mem _ (ih h)

theorem keys_setProp_subset {κ α : Type} [DecidableEq κ] (l : List (κ × α))
    (k : κ) (x : α) (j : κ) (h : j ∈ (setProp l k x).map Prod.fst) :
    j = k ∨ j ∈ l.map Prod.fst := by
  induction l with
  | nil =>
      simp [setProp] at h
      exact Or.inl h
  | cons hd rest ih =>
      obtain ⟨k', y⟩ := hd
      by_cases hk : k' = k
      · rw [show setProp ((k', y) :: rest) k x = (k, x) :: rest from by
          simp [setProp, hk]] at h
        simp at h
        rcases h with h | h
        · exact Or.inl h
        · exact Or.inr (by simp [h])
      · rw [show setProp ((k', y) :: rest) k x = (k', y) :: setProp rest k x
          from by simp [setProp, hk]] at h
        simp at h
        rcases h with h | h
        · exact Or.inr (by simp [h])
        · rcases ih (by simpa using h) with h2 | h2
          · exact Or.inl h2
          · refine Or.inr ?_
            simp only [List.map_cons, List.mem_cons]
            exact Or.inr h2

theorem nodup_keys_setProp {κ α : Type} [DecidableEq κ] (l : List (κ × α))
    (k : κ) (x : α) (h : (l.map Prod.fst).Nodup) :
    ((setProp l k x).map Prod.fst).Nodup := by
  induction l with
  | nil => simp [setProp]
  | cons hd rest ih =>
      obtain ⟨k', y⟩ := hd
      simp only [List.map_cons, List.nodup_cons] at h
      by_cases hk : k' = k
      · rw [show setProp ((k', y) :: rest) k x = (k, x) :: rest from by
          simp [setProp, hk]]
        simp only [List.map_cons, List.nodup_cons]
        exact ⟨hk ▸ h.1, h.2⟩
      · rw [show setProp ((k', y) :: rest) k x = (k', y) :: setProp rest k x
          from by simp [setProp, hk]]
        simp only [List.map_cons, List.nodup_cons]
        refine ⟨fun hc => ?_, ih h.2⟩
        rcases keys_setProp_subset rest k x k' hc with h2 | h2
        · exact hk h2
        · exact h.1 h2

theorem getProp_eq_of_mem_nodup {κ α : Type} [DecidableEq κ]
    (l : List (κ × α)) (k : κ) (x : α) (hmem : (k, x) ∈ l)
    (hnd : (l.map Prod.fst).Nodup) : getProp l k = some x := by
  induction l with
  | nil => simp at hmem
  | cons hd rest ih =>
      obtain ⟨k', y⟩ := hd
      simp only [List.map_cons, List.nodup_cons] at hnd
      rcases List.mem_cons.mp hmem with h | h
      · have h1 : k' = k := by
          have := congrArg Prod.fst h.symm
          simpa using this
        have h2 : y = x := by
          have := congrArg Prod.snd h.symm
          simpa using this
        subst h1; subst h2
        simp [getProp]
      · have hk : ¬ (k' = k) := by
          intro hc
          subst hc
          exact hnd.1 (by simpa using List.mem_map_of_mem Prod.fst h)
        rw [show getProp ((k', y) :: rest) k = getProp rest k from by
          simp [getProp, hk]]
        exact ih h hnd.2

/-- `updateStatForValue` always increments `presentCount` by exactly one. -/
theorem updateStatForValue_presentCount (cfg : LintConfig) (stat : FieldStat)
    (fieldPath docId : String) (v : Value) :
    (updateStatForValue cfg stat fieldPath docId v).presentCount
      = stat.presentCount + 1 := by
  unfold updateStatForValue
  split
  · split <;> rfl
  · rfl

/-- The `presentCount` recorded for field `f`, 0 when the field is
unknown: the observable the pass-1 lemmas track. -/
def statPC (fs : List (String × FieldStat)) (f : String) : Nat :=
  ((getProp fs f).map (fun s => s.presentCount)).getD 0

theorem statPC_pass1Entry (cfg : LintConfig) (docId : String)
    (st : Pass1State) (e : String × Value) (f : String) :
    statPC (pass1Entry cfg docId st e).fieldStats f
      = if e.1 = f then statPC st.fieldStats f + 1
        else statPC st.fieldStats f := by
  unfold pass1Entry statPC
  simp only [Pass1State.fieldStats]
  by_cases hk : e.1 = f
  · subst hk
    rw [getProp_setProp_self]
    simp [updateStatForValue_presentCount]
    cases hg : getProp st.fieldStats e.1 <;> simp [hg, makeFieldStat]
  · rw [getProp_setProp_ne _ _ _ _ (fun hc => hk hc.symm)]
    simp [hk]

theorem pass1Entry_totalDocs (cfg : LintConfig) (docId : String)
    (st : Pass1State) (e : String × Value) :
    (pass1Entry cfg docId st e).totalDocs = st.totalDocs := rfl

theorem pass1Entry_variantKeys (cfg : LintConfig) (docId : String)
    (st : Pass1State) (e : String × Value)
    (h : ((st.fieldStats.map Prod.fst)).Nodup) :
    (((pass1Entry cfg docId st e).fieldStats.map Prod.fst)).Nodup := by
  unfold pass1Entry
  simp only [Pass1State.fieldStats]
  exact nodup_keys_setProp _ _ _ h


/-- `flattenEntries` only ever extends `out` through `setProp`, so the
flattened keys stay duplicate-free (size-bounded induction). -/
theorem flattenEntries_keys_nodup_aux : ∀ (n : Nat)
    (entries : List (String × Value)), sizeOf entries ≤ n →
    ∀ (base : String) (out : List (String × Value)),
    ((out.map Prod.fst)).Nodup →
    (((flattenEntries base out entries).map Prod.fst)).Nodup := by
  intro n
  induction n with
  | zero =>
      intro entries hsz
      rcases entries with _ | ⟨e, rest⟩ <;> simp at hsz
  | succ n ih =>
      intro entries hsz base out hout
      rcases entries with _ | ⟨⟨k, v⟩, rest⟩
      · simp only [flattenEntries]
        exact hout
      · have hszr : sizeOf rest ≤ n := by
          simp at hsz
          omega
        rcases v with _ | b | q | sv | _ | _ | _ | _ | elems | inner | _
        case vobj =>
          have hszi : sizeOf inner ≤ n := by
            simp at hsz
            omega
          simp only [flattenEntries]
          exact ih rest hszr base _ (ih inner hszi _ out hout)
        all_goals simp only [flattenEntries]
        all_goals exact ih rest hszr base _ (nodup_keys_setProp _ _ _ hout)

theorem flattenEntries_keys_nodup (base : String)
    (out : List (String × Value)) (entries : List (String × Value))
    (h : ((out.map Prod.fst)).Nodup) :
    (((flattenEntries base out entries).map Prod.fst)).Nodup :=
  flattenEntries_keys_nodup_aux (sizeOf entries) entries (Nat.le_refl _)
    base out h

theorem flattenDoc_keys_nodup (data : List (String × Value)) :
    (((flattenDoc data).map Prod.fst)).Nodup := by
  unfold flattenDoc
  exact flattenEntries_keys_nodup "" [] data (by simp)

/-- The per-document entry fold of pass 1, field-stat observables. -/
theorem statPC_entriesFoldl_not_mem (cfg : LintConfig) (docId : String)
    (entries : List (String × Value)) (st : Pass1State) (f : String)
    (h : f ∉ entries.map Prod.fst) :
    statPC ((entries.foldl (pass1Entry cfg docId) st).fieldStats) f
      = statPC st.fieldStats f := by
  induction entries generalizing st with
  | nil => rfl
  | cons e rest ih =>
      simp only [List.map_cons, List.mem_cons, not_or] at h
      rw [List.foldl_cons, ih _ h.2, statPC_pass1Entry,
        if_neg (fun hc => h.1 hc.symm)]

theorem statPC_entriesFoldl_mono (cfg : LintConfig) (docId : String)
    (entries : List (String × Value)) (st : Pass1State) (f : String) :
    statPC st.fieldStats f
      ≤ statPC ((entries.foldl (pass1Entry cfg docId) st).fieldStats) f := by
  induction entries generalizing st with
  | nil => exact Nat.le_refl _
  | cons e rest ih =>
      rw [List.foldl_cons]
      refine Nat.le_trans ?_ (ih (pass1Entry cfg docId st e))
      rw [statPC_pass1Entry]
      split <;> omega

theorem statPC_entriesFoldl_le (cfg : LintConfig) (docId : String)
    (entries : List (String × Value)) (st : Pass1State) (f : String)
    (hnd : ((entries.map Prod.fst)).Nodup) :
    statPC ((entries.foldl (pass1Entry cfg docId) st).fieldStats) f
      ≤ statPC st.fieldStats f + 1 := by
  induction entries generalizing st with
  | nil => exact Nat.le_succ_of_le (Nat.le_refl _)
  | cons e rest ih =>
      simp only [List.map_cons, List.nodup_cons] at hnd
      rw [List.foldl_cons]
      by_cases hk : e.1 = f
      · subst hk
        rw [statPC_entriesFoldl_not_mem cfg docId rest _ _ hnd.1,
          statPC_pass1Entry, if_pos rfl]
      · refine Nat.le_trans (ih _ hnd.2) ?_
        rw [statPC_pass1Entry, if_neg hk]

theorem statPC_entriesFoldl_ge (cfg : LintConfig) (docId : String)
    (entries : List (String × Value)) (st : Pass1State) (f : String)
    (hmem : f ∈ entries.map Prod.fst) :
    statPC st.fieldStats f + 1
      ≤ statPC ((entries.foldl (pass1Entry cfg docId) st).fieldStats) f := by
  induction entries generalizing st with
  | nil => simp at hmem
  | cons e rest ih =>
      rw [List.foldl_cons]
      by_cases hk : e.1 = f
      · refine Nat.le_trans ?_ (statPC_entriesFoldl_mono cfg docId rest _ f)
        rw [statPC_pass1Entry, if_pos hk]
      · simp only [List.map_cons, List.mem_cons] at hmem
        rcases hmem with hmem | hmem
        · exact absurd hmem.symm hk
        · refine Nat.le_trans ?_ (ih _ hmem)
          rw [statPC_pass1Entry, if_neg hk]

theorem entriesFoldl_totalDocs (cfg : LintConfig) (docId : String)
    (entries : List (String × Value)) (st : Pass1State) :
    (entries.foldl (pass1Entry cfg docId) st).totalDocs = st.totalDocs := by
  induction entries generalizing st with
  | nil => rfl
  | cons e rest ih => rw [List.foldl_cons, ih, pass1Entry_totalDocs]

theorem entriesFoldl_keysNodup (cfg : LintConfig) (docId : String)
    (entries : List (String × Value)) (st : Pass1State)
    (h : ((st.fieldStats.map Prod.fst)).Nodup) :
    ((((entries.foldl (pass1Entry cfg docId) st).fieldStats).map
        Prod.fst)).Nodup := by
  induction entries generalizing st with
  | nil => exact h
  | cons e rest ih =>
      rw [List.foldl_cons]
      exact ih _ (pass1Entry_variantKeys cfg docId st e h)

/-- Document-level pass-1 lemmas. -/
theorem pass1Doc_totalDocs (cfg : LintConfig) (st : Pass1State) (d : LDoc) :
    (pass1Doc cfg st d).totalDocs = st.totalDocs + 1 := by
  unfold pass1Doc
  rw [entriesFoldl_totalDocs]

theorem docsFoldl_totalDocs (cfg : LintConfig) (ds : List LDoc)
    (st : Pass1State) :
    (ds.foldl (pass1Doc cfg) st).totalDocs = st.totalDocs + ds.length := by
  induction ds generalizing st with
  | nil => rfl
  | cons d rest ih =>
      rw [List.foldl_cons, ih, pass1Doc_totalDocs]
      simp [Nat.add_comm, Nat.add_assoc]
      omega

theorem docsFoldl_keysNodup (cfg : LintConfig) (ds : List LDoc)
    (st : Pass1State) (h : ((st.fieldStats.map Prod.fst)).Nodup) :
    (((ds.foldl (pass1Doc cfg) st).fieldStats.map Prod.fst)).Nodup := by
  induction ds generalizing st with
  | nil => exact h
  | cons d rest ih =>
      rw [List.foldl_cons]
      exact ih _ (entriesFoldl_keysNodup _ _ _ _ h)

theorem docsFoldl_statPC_le_totalDocs (cfg : LintConfig) (ds : List LDoc)
    (st : Pass1State) (f : String)
    (h : statPC st.fieldStats f ≤ st.totalDocs) :
    statPC ((ds.foldl (pass1Doc cfg) st).fieldStats) f
      ≤ (ds.foldl (pass1Doc cfg) st).totalDocs := by
  induction ds generalizing st with
  | nil => exact h
  | cons d rest ih =>
      rw [List.foldl_cons]
      refine ih _ ?_
      rw [pass1Doc_totalDocs]
      unfold pass1Doc
      refine Nat.le_trans (statPC_entriesFoldl_le cfg d.id _ _ f
        (flattenDoc_keys_nodup d.data)) ?_
      simpa using h

theorem docsFoldl_statPC_ge_totalDocs (cfg : LintConfig) (ds : List LDoc)
    (st : Pass1State) (f : String)
    (hall : ∀ d ∈ ds, f ∈ (flattenDoc d.data).map Prod.fst)
    (h : st.totalDocs ≤ statPC st.fieldStats f) :
    (ds.foldl (pass1Doc cfg) st).totalDocs
      ≤ statPC ((ds.foldl (pass1Doc cfg) st).fieldStats) f := by
  induction ds generalizing st with
  | nil => exact h
  | cons d rest ih =>
      rw [List.foldl_cons]
      refine ih _ (fun q hq => hall q (List.mem_cons_of_mem d hq)) ?_
      rw [pass1Doc_totalDocs]
      unfold pass1Doc
      refine Nat.le_trans ?_ (statPC_entriesFoldl_ge cfg d.id _ _ f
        (hall d (List.mem_cons_self d rest)))
      simpa using Nat.succ_le_succ h


/-! ### Pass-2 lemmas -/

theorem pass2Doc_nil (cfg : LintConfig) (me : List (String × List String))
    (d : LDoc) : pass2Doc cfg [] me d = me := rfl

theorem pass2Doc_cons (cfg : LintConfig) (g : String) (rest : List String)
    (me : List (String × List String)) (d : LDoc) :
    pass2Doc cfg (g :: rest) me d
      = pass2Doc cfg rest
          (if ((flattenDoc d.data).map (fun e => e.1)).contains g then me
           else setProp me g (pushExample ((getProp me g).getD []) d.id
             cfg.examplesPerIssue)) d := rfl

/-- One pass-2 document preserves the example-list invariant: bounded
length, and every recorded id names a document of `S` that lacks the
field. -/
theorem pass2Doc_inv (cfg : LintConfig) (el : List String)
    (me : List (String × List String)) (d : LDoc) (S : List LDoc)
    (hd : d ∈ S)
    (hinv : ∀ f l, getProp me f = some l →
      l.length ≤ cfg.examplesPerIssue
        ∧ ∀ id ∈ l, ∃ d2, d2 ∈ S ∧ d2.id = id
            ∧ f ∉ (flattenDoc d2.data).map Prod.fst) :
    ∀ f l, getProp (pass2Doc cfg el me d) f = some l →
      l.length ≤ cfg.examplesPerIssue
        ∧ ∀ id ∈ l, ∃ d2, d2 ∈ S ∧ d2.id = id
            ∧ f ∉ (flattenDoc d2.data).map Prod.fst := by
  induction el generalizing me with
  | nil =>
      rw [pass2Doc_nil]
      exact hinv
  | cons g rest ih =>
      rw [pass2Doc_cons]
      refine ih _ ?_
      by_cases hc : ((flattenDoc d.data).map (fun e => e.1)).contains g = true
      · rw [if_pos hc]
        exact hinv
      · rw [if_neg hc]
        intro f l hget
        by_cases hfg : f = g
        · subst hfg
          rw [getProp_setProp_self] at hget
          cases hget
          have hne : f ∉ (flattenDoc d.data).map Prod.fst := by
            simpa using hc
          have hold : ((getProp me f).getD []).length ≤ cfg.examplesPerIssue
              ∧ ∀ id ∈ (getProp me f).getD [],
                ∃ d2, d2 ∈ S ∧ d2.id = id
                  ∧ f ∉ (flattenDoc d2.data).map Prod.fst := by
            cases hg : getProp me f with
            | none => simp
            | some l0 => simpa using hinv f l0 hg
          unfold pushExample
          split
          · exact hold
          · constructor
            · rename_i hlen
              simp only [List.length_append, List.length_singleton]
              omega
            · intro id hid
              rcases List.mem_append.mp hid with hid | hid
              · exact hold.2 id hid
              · refine ⟨d, hd, ?_, hne⟩
                simp at hid
                rw [hid]
        · rw [getProp_setProp_ne _ _ _ _ hfg] at hget
          exact hinv f l hget

theorem pass2_foldl_inv (cfg : LintConfig) (el : List String) (S : List LDoc) :
    ∀ (ds : List LDoc), (∀ d ∈ ds, d ∈ S) →
    ∀ (me : List (String × List String)),
    (∀ f l, getProp me f = some l →
      l.length ≤ cfg.examplesPerIssue
        ∧ ∀ id ∈ l, ∃ d2, d2 ∈ S ∧ d2.id = id
            ∧ f ∉ (flattenDoc d2.data).map Prod.fst) →
    ∀ f l, getProp (ds.foldl (pass2Doc cfg el) me) f = some l →
      l.length ≤ cfg.examplesPerIssue
        ∧ ∀ id ∈ l, ∃ d2, d2 ∈ S ∧ d2.id = id
            ∧ f ∉ (flattenDoc d2.data).map Prod.fst := by
  intro ds
  induction ds with
  | nil => intro _ me hinv; exact hinv
  | cons d rest ih =>
      intro hsub me hinv
      rw [List.foldl_cons]
      exact ih (fun q hq => hsub q (List.mem_cons_of_mem d hq)) _
        (pass2Doc_inv cfg el me d S (hsub d (List.mem_cons_self d rest)) hinv)

/-- The pass-2 invariant at the result of `pass2`, `getD []` form. -/
theorem pass2_inv (cfg : LintConfig) (el : List String) (docs : List LDoc)
    (f : String) :
    ((getProp (pass2 cfg el docs) f).getD []).length ≤ cfg.examplesPerIssue
      ∧ ∀ id ∈ (getProp (pass2 cfg el docs) f).getD [],
          ∃ d2, d2 ∈ scanDocs cfg docs ∧ d2.id = id
            ∧ f ∉ (flattenDoc d2.data).map Prod.fst := by
  have main := pass2_foldl_inv cfg el (scanDocs cfg docs) (scanDocs cfg docs)
    (fun d hd => hd) [] (fun f l hget => by simp [getProp] at hget)
  cases hg : getProp (pass2 cfg el docs) f with
  | none => simp
  | some l =>
      have := main f l (by rw [← hg]; rfl)
      simpa using this

theorem pushExample_ne_nil_of_ne_nil {α : Type} (arr : List α) (x : α)
    (n : Nat) (h : arr ≠ []) : pushExample arr x n ≠ [] := by
  unfold pushExample
  split
  · exact h
  · simp

theorem pushExample_ne_nil_of_pos {α : Type} (arr : List α) (x : α)
    (n : Nat) (hn : 1 ≤ n) : pushExample arr x n ≠ [] := by
  unfold pushExample
  split
  · rename_i hlen
    intro hc
    subst hc
    simp at hlen
    omega
  · simp

/-- A nonempty pass-2 example list stays nonempty. -/
theorem pass2Doc_keeps (cfg : LintConfig) (el : List String)
    (me : List (String × List String)) (d : LDoc) (f : String)
    (h : (getProp me f).getD [] ≠ []) :
    (getProp (pass2Doc cfg el me d) f).getD [] ≠ [] := by
  induction el generalizing me with
  | nil => rw [pass2Doc_nil]; exact h
  | cons g rest ih =>
      rw [pass2Doc_cons]
      refine ih _ ?_
      by_cases hc : ((flattenDoc d.data).map (fun e => e.1)).contains g = true
      · rw [if_pos hc]; exact h
      · rw [if_neg hc]
        by_cases hfg : f = g
        · subst hfg
          rw [getProp_setProp_self]
          simpa using pushExample_ne_nil_of_ne_nil _ _ _ h
        · rw [getProp_setProp_ne _ _ _ _ hfg]
          exact h

/-- Processing a scanned document that lacks an expected field creates a
non-empty example list for it (when at least one example is allowed). -/
theorem pass2Doc_creates (cfg : LintConfig) (el : List String)
    (me : List (String × List String)) (d : LDoc) (f : String)
    (hN : 1 ≤ cfg.examplesPerIssue) (hf : f ∈ el)
    (hmiss : f ∉ (flattenDoc d.data).map Prod.fst) :
    (getProp (pass2Doc cfg el me d) f).getD [] ≠ [] := by
  induction el generalizing me with
  | nil => simp at hf
  | cons g rest ih =>
      rw [pass2Doc_cons]
      by_cases hfg : g = f
      · subst hfg
        have hc : ¬ (((flattenDoc d.data).map (fun e => e.1)).contains g
            = true) := by
          simpa using hmiss
        rw [if_neg hc]
        refine pass2Doc_keeps cfg rest _ d g ?_
        rw [getProp_setProp_self]
        simpa using pushExample_ne_nil_of_pos _ _ _ hN
      · have hf2 : f ∈ rest := by
          rcases List.mem_cons.mp hf with h | h
          · exact absurd h.symm hfg
          · exact h
        exact ih _ hf2

theorem pass2_foldl_keeps (cfg : LintConfig) (el : List String)
    (ds : List LDoc) (me : List (String × List String)) (f : String)
    (h : (getProp me f).getD [] ≠ []) :
    (getProp (ds.foldl (pass2Doc cfg el) me) f).getD [] ≠ [] := by
  induction ds generalizing me with
  | nil => exact h
  | cons d rest ih =>
      rw [List.foldl_cons]
      exact ih _ (pass2Doc_keeps cfg el me d f h)

/-- `pass2` records at least one example id for an expected field that
some scanned document lacks. -/
theorem pass2_nonempty (cfg : LintConfig) (el : List String)
    (docs : List LDoc) (f : String) (d : LDoc)
    (hd : d ∈ scanDocs cfg docs) (hf : f ∈ el)
    (hN : 1 ≤ cfg.examplesPerIssue)
    (hmiss : f ∉ (flattenDoc d.data).map Prod.fst) :
    (getProp (pass2 cfg el docs) f).getD [] ≠ [] := by
  obtain ⟨s, t, hsplit⟩ := List.append_of_mem hd
  unfold pass2
  rw [hsplit, List.foldl_append, List.foldl_cons]
  exact pass2_foldl_keeps cfg el t _ f
    (pass2Doc_creates cfg el _ d f hN hf hmiss)

/-! ### Rounding lemmas -/

/-- `round4` cannot pull a value below a threshold that lies on the
4-decimal grid. -/
theorem round4_mono_grid (t x : ℚ) (hden : (t * 10000).den = 1)
    (h : t ≤ x) : t ≤ round4 x := by
  unfold round4
  rw [le_div_iff₀ (by norm_num : (0:ℚ) < 10000)]
  have hint : (((t * 10000).num : ℤ) : ℚ) = t * 10000 :=
    (Rat.den_eq_one_iff _).mp hden
  rw [← hint, Int.cast_le, round_eq]
  refine Int.le_floor.mpr ?_
  have h2 : t * 10000 ≤ x * 10000 :=
    mul_le_mul_of_nonneg_right h (by norm_num)
  rw [hint]
  linarith

/-- `round4` keeps values in `[0, 1]` at most 1. -/
theorem round4_le_one (x : ℚ) (h1 : x ≤ 1) : round4 x ≤ 1 := by
  unfold round4
  rw [div_le_one (by norm_num : (0:ℚ) < 10000)]
  have hle : round (x * 10000) ≤ (10000 : ℤ) := by
    rw [round_eq]
    have h2 : x * 10000 + 1 / 2 ≤ (1 : ℚ) / 2 + (10000 : ℤ) := by
      push_cast
      nlinarith
    refine le_trans (Int.floor_le_floor h2) ?_
    rw [Int.floor_add_int]
    norm_num
  exact_mod_cast hle


/-! ### Report plumbing -/

theorem runLint_missing_fields (cfg : LintConfig) (docs : List LDoc) :
    (runLint cfg docs).missing_fields
      = (if (buildMissingIssues (pass1 cfg docs).1.totalDocs
              (expectedRows cfg (buildFieldRows (pass1 cfg docs).1.totalDocs
                (pass1 cfg docs).1.fieldStats))
              (if (expectedFieldsPass1 cfg (pass1 cfg docs).1).length > 0
               then pass2 cfg (expectedFieldsPass1 cfg (pass1 cfg docs).1) docs
               else [])).isEmpty
         then none
         else some (buildMissingIssues (pass1 cfg docs).1.totalDocs
              (expectedRows cfg (buildFieldRows (pass1 cfg docs).1.totalDocs
                (pass1 cfg docs).1.fieldStats))
              (if (expectedFieldsPass1 cfg (pass1 cfg docs).1).length > 0
               then pass2 cfg (expectedFieldsPass1 cfg (pass1 cfg docs).1) docs
               else []))) := rfl

theorem runLint_docs_scanned (cfg : LintConfig) (docs : List LDoc) :
    (runLint cfg docs).docs_scanned = (scanDocs cfg docs).length := rfl

theorem runLint_expected_count (cfg : LintConfig) (docs : List LDoc) :
    (runLint cfg docs).summary.expected_fields_count
      = (expectedRows cfg (buildFieldRows (pass1 cfg docs).1.totalDocs
          (pass1 cfg docs).1.fieldStats)).length := rfl

/-- C5: every top-level (flattened) field whose raw presence fraction
reaches `requiredThreshold` but whose `presentCount` is below
`totalDocs` produces a `missing_fields` issue carrying the deficit
count, the rounded deficit fraction, and at most `examplesPerIssue` ids
of scanned documents that lack the field.  The threshold must lie on
the 4-decimal rounding grid (the configured `0.9` does), since the
report-side filter applies it to the rounded presence fraction. -/
theorem missing_field_issue_reported (cfg : LintConfig) (docs : List LDoc)
    (f : String) (stat : FieldStat)
    (hgrid : (cfg.requiredThreshold * 10000).den = 1)
    (hstat : getProp (pass1 cfg docs).1.fieldStats f = some stat)
    (hraw : cfg.requiredThreshold
        ≤ (stat.presentCount : ℚ) / ((pass1 cfg docs).1.totalDocs : ℚ))
    (hlt : stat.presentCount < (pass1 cfg docs).1.totalDocs) :
    ∃ issues, (runLint cfg docs).missing_fields = some issues
      ∧ ∃ issue ∈ issues,
          issue.field = f
          ∧ issue.missing_count
              = (pass1 cfg docs).1.totalDocs - stat.presentCount
          ∧ issue.missing_pct = round4
              ((((pass1 cfg docs).1.totalDocs - stat.presentCount : ℕ) : ℚ)
                / ((pass1 cfg docs).1.totalDocs : ℚ))
          ∧ (issue.example_doc_ids.getD []).length ≤ cfg.examplesPerIssue
          ∧ ∀ id ∈ issue.example_doc_ids.getD [],
              ∃ d, d ∈ scanDocs cfg docs ∧ d.id = id
                ∧ f ∉ (flattenDoc d.data).map Prod.fst := by
  have hT0 : ¬ ((pass1 cfg docs).1.totalDocs = 0) := by omega
  have hmem := getProp_mem _ _ _ hstat
  have hpct : (if (pass1 cfg docs).1.totalDocs = 0 then (0:ℚ)
      else (stat.presentCount : ℚ) / ((pass1 cfg docs).1.totalDocs : ℚ))
      = (stat.presentCount : ℚ) / ((pass1 cfg docs).1.totalDocs : ℚ) :=
    if_neg hT0
  -- the field's row of the report
  have hrowmem : (FieldRow.mk f stat.presentCount
      (round4 ((stat.presentCount : ℚ) / ((pass1 cfg docs).1.totalDocs : ℚ)))
      stat.kinds
      (decide ((((stat.kinds.map Prod.fst).filter
        (fun k => !(k == Kind.null))).length > 1)))
      (if stat.regexViolations.isEmpty then none
       else some stat.regexViolations))
      ∈ buildFieldRows (pass1 cfg docs).1.totalDocs
          (pass1 cfg docs).1.fieldStats := by
    unfold buildFieldRows
    refine List.mem_map.mpr ⟨(f, stat), hmem, ?_⟩
    simp only [hpct]
  -- it passes the rounded-threshold filter
  have hround : cfg.requiredThreshold ≤ round4
      ((stat.presentCount : ℚ) / ((pass1 cfg docs).1.totalDocs : ℚ)) :=
    round4_mono_grid _ _ hgrid hraw
  have hexprow : (FieldRow.mk f stat.presentCount
      (round4 ((stat.presentCount : ℚ) / ((pass1 cfg docs).1.totalDocs : ℚ)))
      stat.kinds
      (decide ((((stat.kinds.map Prod.fst).filter
        (fun k => !(k == Kind.null))).length > 1)))
      (if stat.regexViolations.isEmpty then none
       else some stat.regexViolations))
      ∈ expectedRows cfg (buildFieldRows (pass1 cfg docs).1.totalDocs
          (pass1 cfg docs).1.fieldStats) := by
    unfold expectedRows
    refine List.mem_mergeSort.mpr (List.mem_filter.mpr ⟨hrowmem, ?_⟩)
    rw [decide_eq_true_eq]
    exact hround
  -- the field is in the raw expected set, so pass 2 really ran
  have hfexp : f ∈ expectedFieldsPass1 cfg (pass1 cfg docs).1 := by
    unfold expectedFieldsPass1
    refine List.mem_map.mpr ⟨(f, stat), List.mem_filter.mpr ⟨hmem, ?_⟩, rfl⟩
    rw [decide_eq_true_eq, hpct]
    exact hraw
  have hexplen : (expectedFieldsPass1 cfg (pass1 cfg docs).1).length > 0 :=
    List.length_pos.mpr (List.ne_nil_of_mem hfexp)
  -- the examples recorded for the field
  have hex := pass2_inv cfg (expectedFieldsPass1 cfg (pass1 cfg docs).1) docs f
  have hexeq : ((if ((getProp (pass2 cfg
      (expectedFieldsPass1 cfg (pass1 cfg docs).1) docs) f).getD []).isEmpty
      then none
      else some ((getProp (pass2 cfg
        (expectedFieldsPass1 cfg (pass1 cfg docs).1) docs) f).getD [])).getD [])
      = (getProp (pass2 cfg
          (expectedFieldsPass1 cfg (pass1 cfg docs).1) docs) f).getD [] := by
    by_cases hc : ((getProp (pass2 cfg
        (expectedFieldsPass1 cfg (pass1 cfg docs).1) docs) f).getD []).isEmpty
        = true
    · rw [if_pos hc]
      simp [List.isEmpty_iff.mp hc]
    · rw [if_neg hc]
      rfl
  -- the missing issue
  have hiss : (MissingIssue.mk f
      ((pass1 cfg docs).1.totalDocs - stat.presentCount)
      (round4 ((((pass1 cfg docs).1.totalDocs - stat.presentCount : ℕ) : ℚ)
        / ((pass1 cfg docs).1.totalDocs : ℚ)))
      (if ((getProp (pass2 cfg
          (expectedFieldsPass1 cfg (pass1 cfg docs).1) docs) f).getD
          []).isEmpty
       then none
       else some ((getProp (pass2 cfg
          (expectedFieldsPass1 cfg (pass1 cfg docs).1) docs) f).getD [])))
      ∈ buildMissingIssues (pass1 cfg docs).1.totalDocs
          (expectedRows cfg (buildFieldRows (pass1 cfg docs).1.totalDocs
            (pass1 cfg docs).1.fieldStats))
          (if (expectedFieldsPass1 cfg (pass1 cfg docs).1).length > 0
           then pass2 cfg (expectedFieldsPass1 cfg (pass1 cfg docs).1) docs
           else []) := by
    unfold buildMissingIssues
    refine List.mem_mergeSort.mpr (List.mem_filterMap.mpr
      ⟨_, hexprow, ?_⟩)
    rw [if_neg (by simpa using Nat.not_le.mpr hlt), if_pos hexplen]
  refine ⟨_, ?_, _, hiss, rfl, rfl, rfl, ?_, ?_⟩
  · rw [runLint_missing_fields,
      show (buildMissingIssues (pass1 cfg docs).1.totalDocs
          (expectedRows cfg (buildFieldRows (pass1 cfg docs).1.totalDocs
            (pass1 cfg docs).1.fieldStats))
          (if (expectedFieldsPass1 cfg (pass1 cfg docs).1).length > 0
           then pass2 cfg (expectedFieldsPass1 cfg (pass1 cfg docs).1) docs
           else [])).isEmpty = false
        from List.isEmpty_eq_false.mpr (List.ne_nil_of_mem hiss)]
    simp
  · simp only [MissingIssue.example_doc_ids]
    rw [hexeq]
    exact hex.1
  · simp only [MissingIssue.example_doc_ids]
    rw [hexeq]
    exact hex.2


/-- The two-document collection used to witness C5: one document has
field `f`, the other lacks it; threshold `1/2` is met exactly. -/
def cfg5 : LintConfig := ⟨none, 1/2, 5/100, 20, false, []⟩

def docs5 : List LDoc := [⟨"a", [("f", Value.vbool true)]⟩, ⟨"b", []⟩]

unseal flattenEntries in
theorem missing_field_issue_reported_witness :
    ((cfg5.requiredThreshold * 10000).den = 1
      ∧ getProp (pass1 cfg5 docs5).1.fieldStats "f"
          = some (FieldStat.mk 1 [(Kind.boolean, 1)]
              [(Kind.boolean, ["a"])] [])
      ∧ cfg5.requiredThreshold
          ≤ (((FieldStat.mk 1 [(Kind.boolean, 1)] [(Kind.boolean, ["a"])]
              []).presentCount : ℚ) / ((pass1 cfg5 docs5).1.totalDocs : ℚ))
      ∧ (FieldStat.mk 1 [(Kind.boolean, 1)] [(Kind.boolean, ["a"])]
          []).presentCount < (pass1 cfg5 docs5).1.totalDocs)
    ∧ (∃ issues, (runLint cfg5 docs5).missing_fields = some issues
        ∧ ∃ issue ∈ issues,
            issue.field = "f"
            ∧ issue.missing_count
                = (pass1 cfg5 docs5).1.totalDocs
                  - (FieldStat.mk 1 [(Kind.boolean, 1)]
                      [(Kind.boolean, ["a"])] []).presentCount
            ∧ issue.missing_pct = round4
                ((((pass1 cfg5 docs5).1.totalDocs
                    - (FieldStat.mk 1 [(Kind.boolean, 1)]
                        [(Kind.boolean, ["a"])] []).presentCount : ℕ) : ℚ)
                  / ((pass1 cfg5 docs5).1.totalDocs : ℚ))
            ∧ (issue.example_doc_ids.getD []).length ≤ cfg5.examplesPerIssue
            ∧ ∀ id ∈ issue.example_doc_ids.getD [],
                ∃ d, d ∈ scanDocs cfg5 docs5 ∧ d.id = id
                  ∧ "f" ∉ (flattenDoc d.data).map Prod.fst) := by
  refine ⟨⟨?_, ?_, ?_, ?_⟩,
    missing_field_issue_reported cfg5 docs5 "f" _ ?_ ?_ ?_ ?_⟩
  · rw [show cfg5.requiredThreshold * 10000 = (5000 : ℚ) by norm_num [cfg5]]
    rfl
  · rfl
  · rw [show ((pass1 cfg5 docs5).1.totalDocs : ℚ) = (2 : ℚ) from by rfl]
    norm_num [cfg5, FieldStat.presentCount]
  · decide
  · rw [show cfg5.requiredThreshold * 10000 = (5000 : ℚ) by norm_num [cfg5]]
    rfl
  · rfl
  · rw [show ((pass1 cfg5 docs5).1.totalDocs : ℚ) = (2 : ℚ) from by rfl]
    norm_num [cfg5, FieldStat.presentCount]
  · decide


/-- `getD []` of the empty-to-`none` option wrapping used by the report
builders. -/
theorem optList_getD {α : Type} (l : List α) :
    ((if l.isEmpty then none else some l) : Option (List α)).getD [] = l := by
  by_cases hc : l.isEmpty = true
  · rw [if_pos hc]
    simp [List.isEmpty_iff.mp hc]
  · rw [if_neg hc]
    rfl

/-- C6 (amended): every emitted missing-field issue has an example list
of length at most `examplesPerIssue` and a strictly positive deficit
count; with `examplesPerIssue = 0` the example list is always absent
(refuting the unconditional "non-empty iff deficit > 0"), and the
non-emptiness direction does hold whenever at least one example is
allowed and the field's raw presence fraction reaches the threshold, so
that pass 2 collected ids for it. -/
theorem example_bound_amended (cfg : LintConfig) (docs : List LDoc)
    (issues : List MissingIssue) (issue : MissingIssue)
    (hmf : (runLint cfg docs).missing_fields = some issues)
    (hiss : issue ∈ issues) :
    (issue.example_doc_ids.getD []).length ≤ cfg.examplesPerIssue
    ∧ 0 < issue.missing_count
    ∧ (cfg.examplesPerIssue = 0 → issue.example_doc_ids = none)
    ∧ (∀ stat, 1 ≤ cfg.examplesPerIssue →
        getProp (pass1 cfg docs).1.fieldStats issue.field = some stat →
        cfg.requiredThreshold
          ≤ (stat.presentCount : ℚ) / ((pass1 cfg docs).1.totalDocs : ℚ) →
        ∃ l, issue.example_doc_ids = some l ∧ l ≠ []) := by
  rw [runLint_missing_fields] at hmf
  set me := (if (expectedFieldsPass1 cfg (pass1 cfg docs).1).length > 0
      then pass2 cfg (expectedFieldsPass1 cfg (pass1 cfg docs).1) docs
      else []) with hme
  set mi := buildMissingIssues (pass1 cfg docs).1.totalDocs
      (expectedRows cfg (buildFieldRows (pass1 cfg docs).1.totalDocs
        (pass1 cfg docs).1.fieldStats)) me with hmi
  by_cases he : mi.isEmpty = true
  · rw [if_pos he] at hmf
    cases hmf
  · rw [if_neg he] at hmf
    have hmf2 := (Option.some.inj hmf).symm
    rw [hmf2] at hiss
    rw [hmi] at hiss
    unfold buildMissingIssues at hiss
    rw [List.mem_mergeSort] at hiss
    obtain ⟨row, hrow, hg⟩ := List.mem_filterMap.mp hiss
    simp only [] at hg
    split at hg
    · cases hg
    · rename_i hle
      have hg2 := Option.some.inj hg
      unfold expectedRows at hrow
      rw [List.mem_mergeSort] at hrow
      have hrow2 := List.mem_filter.mp hrow
      have hrowmem := hrow2.1
      unfold buildFieldRows at hrowmem
      obtain ⟨p, hpmem, hpeq⟩ := List.mem_map.mp hrowmem
      obtain ⟨f0, stat0⟩ := p
      have hfield : issue.field = f0 := by
        rw [← hg2, ← hpeq]
      have hpc : row.present_count = stat0.presentCount := by
        rw [← hpeq]
      have hexes : issue.example_doc_ids
          = (if ((getProp me row.field).getD []).isEmpty then none
             else some ((getProp me row.field).getD [])) := by
        rw [← hg2]
      have hcount : issue.missing_count
          = (pass1 cfg docs).1.totalDocs - row.present_count := by
        rw [← hg2]
      have hlen : ((getProp me row.field).getD []).length
          ≤ cfg.examplesPerIssue := by
        rw [hme]
        split
        · exact (pass2_inv cfg _ docs row.field).1
        · simp [getProp]
      refine ⟨?_, ?_, ?_, ?_⟩
      · rw [hexes, optList_getD]
        exact hlen
      · rw [hcount]
        omega
      · intro h0
        have hnil : ((getProp me row.field).getD []) = [] := by
          rw [h0] at hlen
          exact List.eq_nil_of_length_eq_zero (Nat.le_zero.mp hlen)
        rw [hexes, hnil]
        rfl
      · intro stat hN hstat hraw
        have hT0 : (pass1 cfg docs).1.totalDocs ≠ 0 := by omega
        have hnodup : (((pass1 cfg docs).1.fieldStats.map Prod.fst)).Nodup :=
          docsFoldl_keysNodup cfg (scanDocs cfg docs) ⟨[], [], 0⟩ (by simp)
        have hlook0 : getProp (pass1 cfg docs).1.fieldStats f0 = some stat0 :=
          getProp_eq_of_mem_nodup _ _ _ hpmem hnodup
        rw [hfield, hlook0] at hstat
        have hstateq : stat0 = stat := Option.some.inj hstat
        rw [← hstateq] at hraw
        have hfexp : f0 ∈ expectedFieldsPass1 cfg (pass1 cfg docs).1 := by
          unfold expectedFieldsPass1
          refine List.mem_map.mpr
            ⟨(f0, stat0), List.mem_filter.mpr ⟨hpmem, ?_⟩, rfl⟩
          rw [decide_eq_true_eq, if_neg hT0]
          exact hraw
        have hexplen :
            (expectedFieldsPass1 cfg (pass1 cfg docs).1).length > 0 :=
          List.length_pos.mpr (List.ne_nil_of_mem hfexp)
        have hlackex : ∃ d, d ∈ scanDocs cfg docs
            ∧ f0 ∉ (flattenDoc d.data).map Prod.fst := by
          by_contra hcon
          have hall : ∀ d ∈ scanDocs cfg docs,
              f0 ∈ (flattenDoc d.data).map Prod.fst := by
            intro d hd
            by_contra hnot
            exact hcon ⟨d, hd, hnot⟩
          have hge := docsFoldl_statPC_ge_totalDocs cfg (scanDocs cfg docs)
            ⟨[], [], 0⟩ f0 hall (Nat.zero_le _)
          have hge2 : (pass1 cfg docs).1.totalDocs
              ≤ statPC (pass1 cfg docs).1.fieldStats f0 := hge
          rw [show statPC (pass1 cfg docs).1.fieldStats f0
              = stat0.presentCount from by
            unfold statPC
            rw [hlook0]
            rfl] at hge2
          rw [hpc] at hle
          omega
        obtain ⟨d, hd, hdnot⟩ := hlackex
        have hne := pass2_nonempty cfg
          (expectedFieldsPass1 cfg (pass1 cfg docs).1) docs f0 d hd hfexp
          hN hdnot
        rw [hexes]
        have hfield2 : row.field = f0 := by
          rw [← hpeq]
        rw [hfield2, hme, if_pos hexplen]
        rw [if_neg (by simpa [List.isEmpty_iff] using hne)]
        exact ⟨_, rfl, hne⟩


/-- The C6 counterexample configuration: `examplesPerIssue = 0`. -/
def cfg6 : LintConfig := ⟨none, 1/2, 5/100, 0, false, []⟩

unseal flattenEntries in
theorem example_bound_counterexample :
    cfg6.examplesPerIssue = 0
    ∧ ∃ issue : MissingIssue,
        (runLint cfg6 docs5).missing_fields = some [issue]
        ∧ 0 < issue.missing_count
        ∧ issue.example_doc_ids = none := by
  refine ⟨rfl, ⟨"f", 1, round4 ((1:ℚ)/2), none⟩, ?_, by norm_num, rfl⟩
  have hgrid12 : ((1:ℚ)/2 * 10000).den = 1 := by
    rw [show (1:ℚ)/2 * 10000 = (5000 : ℚ) by norm_num]
    rfl
  have hth : (1:ℚ)/2 ≤ round4 ((1:ℚ)/2) :=
    round4_mono_grid _ _ hgrid12 (le_refl _)
  rw [runLint_missing_fields]
  rw [show (pass1 cfg6 docs5).1
      = (⟨[("f", FieldStat.mk 1 [(Kind.boolean, 1)] [(Kind.boolean, [])] [])],
          [], 2⟩ : Pass1State) from rfl]
  have hexp : expectedFieldsPass1 cfg6
      ⟨[("f", FieldStat.mk 1 [(Kind.boolean, 1)] [(Kind.boolean, [])] [])],
        [], 2⟩ = ["f"] := by
    norm_num [expectedFieldsPass1, List.filter_cons, cfg6]
  rw [hexp]
  rw [if_pos (by norm_num : (["f"] : List String).length > 0)]
  rw [show pass2 cfg6 ["f"] docs5 = [("f", [])] from rfl]
  have hrows : buildFieldRows 2
      [("f", FieldStat.mk 1 [(Kind.boolean, 1)] [(Kind.boolean, [])] [])]
      = [⟨"f", 1, round4 ((1:ℚ)/2), [(Kind.boolean, 1)], false, none⟩] := by
    norm_num [buildFieldRows]
    decide
  rw [hrows]
  have hexprows : expectedRows cfg6
      [⟨"f", 1, round4 ((1:ℚ)/2), [(Kind.boolean, 1)], false, none⟩]
      = [⟨"f", 1, round4 ((1:ℚ)/2), [(Kind.boolean, 1)], false, none⟩] := by
    unfold expectedRows
    rw [show List.filter
        (fun f => decide (cfg6.requiredThreshold ≤ f.present_pct))
        [(⟨"f", 1, round4 ((1:ℚ)/2), [(Kind.boolean, 1)], false, none⟩
          : FieldRow)]
        = [⟨"f", 1, round4 ((1:ℚ)/2), [(Kind.boolean, 1)], false, none⟩]
      from by norm_num [List.filter_cons, cfg6, hth]]
    rw [List.mergeSort_singleton]
  rw [hexprows]
  have hmiss : buildMissingIssues 2
      [⟨"f", 1, round4 ((1:ℚ)/2), [(Kind.boolean, 1)], false, none⟩]
      [("f", [])]
      = [⟨"f", 1, round4 ((1:ℚ)/2), none⟩] := by
    unfold buildMissingIssues
    rw [show List.filterMap (fun f =>
        if (2:Nat) ≤ f.present_count then none
        else
          some (MissingIssue.mk f.field (2 - f.present_count)
            (round4 (((2 - f.present_count : ℕ) : ℚ) / ((2:ℕ) : ℚ)))
            (if ((getProp [("f", ([] : List String))] f.field).getD
                []).isEmpty
             then none
             else some ((getProp [("f", ([] : List String))] f.field).getD
                []))))
        [(⟨"f", 1, round4 ((1:ℚ)/2), [(Kind.boolean, 1)], false, none⟩
          : FieldRow)]
        = [⟨"f", 1, round4 ((1:ℚ)/2), none⟩]
      from by norm_num [List.filterMap_cons, getProp]]
    rw [List.mergeSort_singleton]
  rw [hmiss]
  rfl


unseal flattenEntries in
theorem example_bound_amended_witness :
    ((runLint cfg5 docs5).missing_fields
        = some [⟨"f", 1, round4 ((1:ℚ)/2), some ["b"]⟩]
      ∧ (⟨"f", 1, round4 ((1:ℚ)/2), some ["b"]⟩ : MissingIssue)
          ∈ [(⟨"f", 1, round4 ((1:ℚ)/2), some ["b"]⟩ : MissingIssue)])
    ∧ (((MissingIssue.example_doc_ids
            ⟨"f", 1, round4 ((1:ℚ)/2), some ["b"]⟩).getD []).length
          ≤ cfg5.examplesPerIssue
      ∧ 0 < (⟨"f", 1, round4 ((1:ℚ)/2), some ["b"]⟩
          : MissingIssue).missing_count
      ∧ (cfg5.examplesPerIssue = 0 →
          (⟨"f", 1, round4 ((1:ℚ)/2), some ["b"]⟩
            : MissingIssue).example_doc_ids = none)
      ∧ (∀ stat, 1 ≤ cfg5.examplesPerIssue →
          getProp (pass1 cfg5 docs5).1.fieldStats
            (⟨"f", 1, round4 ((1:ℚ)/2), some ["b"]⟩
              : MissingIssue).field = some stat →
          cfg5.requiredThreshold
            ≤ (stat.presentCount : ℚ)
              / ((pass1 cfg5 docs5).1.totalDocs : ℚ) →
          ∃ l, (⟨"f", 1, round4 ((1:ℚ)/2), some ["b"]⟩
            : MissingIssue).example_doc_ids = some l ∧ l ≠ [])) := by
  have hgrid12 : ((1:ℚ)/2 * 10000).den = 1 := by
    rw [show (1:ℚ)/2 * 10000 = (5000 : ℚ) by norm_num]
    rfl
  have hth : (1:ℚ)/2 ≤ round4 ((1:ℚ)/2) :=
    round4_mono_grid _ _ hgrid12 (le_refl _)
  have hmf : (runLint cfg5 docs5).missing_fields
      = some [⟨"f", 1, round4 ((1:ℚ)/2), some ["b"]⟩] := by
    rw [runLint_missing_fields]
    rw [show (pass1 cfg5 docs5).1
        = (⟨[("f", FieldStat.mk 1 [(Kind.boolean, 1)]
            [(Kind.boolean, ["a"])] [])], [], 2⟩ : Pass1State) from rfl]
    have hexp : expectedFieldsPass1 cfg5
        ⟨[("f", FieldStat.mk 1 [(Kind.boolean, 1)]
            [(Kind.boolean, ["a"])] [])], [], 2⟩ = ["f"] := by
      norm_num [expectedFieldsPass1, List.filter_cons, cfg5]
    rw [hexp]
    rw [if_pos (by norm_num : (["f"] : List String).length > 0)]
    rw [show pass2 cfg5 ["f"] docs5 = [("f", ["b"])] from rfl]
    have hrows : buildFieldRows 2
        [("f", FieldStat.mk 1 [(Kind.boolean, 1)] [(Kind.boolean, ["a"])] [])]
        = [⟨"f", 1, round4 ((1:ℚ)/2), [(Kind.boolean, 1)], false, none⟩] := by
      norm_num [buildFieldRows]
      decide
    rw [hrows]
    have hexprows : expectedRows cfg5
        [⟨"f", 1, round4 ((1:ℚ)/2), [(Kind.boolean, 1)], false, none⟩]
        = [⟨"f", 1, round4 ((1:ℚ)/2), [(Kind.boolean, 1)], false, none⟩] := by
      unfold expectedRows
      rw [show List.filter
          (fun f => decide (cfg5.requiredThreshold ≤ f.present_pct))
          [(⟨"f", 1, round4 ((1:ℚ)/2), [(Kind.boolean, 1)], false, none⟩
            : FieldRow)]
          = [⟨"f", 1, round4 ((1:ℚ)/2), [(Kind.boolean, 1)], false, none⟩]
        from by norm_num [List.filter_cons, cfg5, hth]]
      rw [List.mergeSort_singleton]
    rw [hexprows]
    have hmiss : buildMissingIssues 2
        [⟨"f", 1, round4 ((1:ℚ)/2), [(Kind.boolean, 1)], false, none⟩]
        [("f", ["b"])]
        = [⟨"f", 1, round4 ((1:ℚ)/2), some ["b"]⟩] := by
      unfold buildMissingIssues
      rw [show List.filterMap (fun f =>
          if (2:Nat) ≤ f.present_count then none
          else
            some (MissingIssue.mk f.field (2 - f.present_count)
              (round4 (((2 - f.present_count : ℕ) : ℚ) / ((2:ℕ) : ℚ)))
              (if ((getProp [("f", (["b"] : List String))] f.field).getD
                  []).isEmpty
               then none
               else some ((getProp [("f", (["b"] : List String))]
                  f.field).getD []))))
          [(⟨"f", 1, round4 ((1:ℚ)/2), [(Kind.boolean, 1)], false, none⟩
            : FieldRow)]
          = [⟨"f", 1, round4 ((1:ℚ)/2), some ["b"]⟩]
        from by norm_num [List.filterMap_cons, getProp]]
      rw [List.mergeSort_singleton]
    rw [hmiss]
    rfl
  exact ⟨⟨hmf, List.mem_singleton_self _⟩,
    example_bound_amended cfg5 docs5 _ _ hmf (List.mem_singleton_self _)⟩


/-- The C9 counterexample configuration: an out-of-range
`requiredThreshold` of `3/2`. -/
def cfg9 : LintConfig := ⟨none, 3/2, 5/100, 20, false, []⟩

unseal flattenEntries in
/-- C9 counterexample: with an invalid threshold (`1.5 > 1`) the linter
does not fail at all: it scans both documents and produces a report. -/
theorem config_fail_fast_counterexample :
    (1 : ℚ) < cfg9.requiredThreshold
    ∧ (runLint cfg9 docs5).docs_scanned = 2
    ∧ (runLint cfg9 docs5).docs_total_seen = 2
    ∧ (runLint cfg9 docs5).summary.fields_total = 1 :=
  ⟨by norm_num [cfg9], rfl, rfl, rfl⟩

/-- C9 (amended): the linter performs no configuration validation; with
any configuration, including an out-of-range `requiredThreshold > 1`,
the scan runs over the whole collection and a report is produced, in
which no field can reach the threshold: the expected-field count is 0
and no missing-field section is emitted. -/
theorem config_not_validated (cfg : LintConfig) (docs : List LDoc)
    (ht : 1 < cfg.requiredThreshold) (hs : cfg.sampleLimit = none) :
    (runLint cfg docs).docs_scanned = docs.length
    ∧ (runLint cfg docs).summary.expected_fields_count = 0
    ∧ (runLint cfg docs).missing_fields = none := by
  have hnodup : (((pass1 cfg docs).1.fieldStats.map Prod.fst)).Nodup :=
    docsFoldl_keysNodup cfg (scanDocs cfg docs) ⟨[], [], 0⟩ (by simp)
  have hfilter : List.filter
      (fun f => decide (cfg.requiredThreshold ≤ f.present_pct))
      (buildFieldRows (pass1 cfg docs).1.totalDocs
        (pass1 cfg docs).1.fieldStats) = [] := by
    rw [List.filter_eq_nil_iff]
    intro row hrow
    unfold buildFieldRows at hrow
    obtain ⟨p, hpmem, hpeq⟩ := List.mem_map.mp hrow
    obtain ⟨f0, stat0⟩ := p
    have hpp : row.present_pct
        = round4 (if (pass1 cfg docs).1.totalDocs = 0 then 0
            else (stat0.presentCount : ℚ)
              / ((pass1 cfg docs).1.totalDocs : ℚ)) := by
      rw [← hpeq]
    have hpct1 : (if (pass1 cfg docs).1.totalDocs = 0 then (0:ℚ)
        else (stat0.presentCount : ℚ)
          / ((pass1 cfg docs).1.totalDocs : ℚ)) ≤ 1 := by
      by_cases hT : (pass1 cfg docs).1.totalDocs = 0
      · rw [if_pos hT]
        norm_num
      · rw [if_neg hT]
        have hlook : getProp (pass1 cfg docs).1.fieldStats f0 = some stat0 :=
          getProp_eq_of_mem_nodup _ _ _ hpmem hnodup
        have hle := docsFoldl_statPC_le_totalDocs cfg (scanDocs cfg docs)
          ⟨[], [], 0⟩ f0 (Nat.le_refl 0)
        have hle2 : statPC (pass1 cfg docs).1.fieldStats f0
            ≤ (pass1 cfg docs).1.totalDocs := hle
        rw [show statPC (pass1 cfg docs).1.fieldStats f0
            = stat0.presentCount from by
          unfold statPC
          rw [hlook]
          rfl] at hle2
        rw [div_le_one (by exact_mod_cast Nat.pos_of_ne_zero hT)]
        exact_mod_cast hle2
    have hnle : ¬ (cfg.requiredThreshold ≤ row.present_pct) := by
      rw [hpp]
      intro hcon
      have := round4_le_one _ hpct1
      linarith
    simpa using hnle
  have hexpnil : expectedRows cfg (buildFieldRows
      (pass1 cfg docs).1.totalDocs (pass1 cfg docs).1.fieldStats) = [] := by
    unfold expectedRows
    rw [hfilter, List.mergeSort_nil]
  refine ⟨?_, ?_, ?_⟩
  · rw [runLint_docs_scanned,
      show scanDocs cfg docs = docs from by
        unfold scanDocs
        rw [hs]]
  · rw [runLint_expected_count, hexpnil]
    rfl
  · rw [runLint_missing_fields, hexpnil]
    rw [show buildMissingIssues (pass1 cfg docs).1.totalDocs []
        (if (expectedFieldsPass1 cfg (pass1 cfg docs).1).length > 0
         then pass2 cfg (expectedFieldsPass1 cfg (pass1 cfg docs).1) docs
         else []) = [] from by
      unfold buildMissingIssues
      rw [show List.filterMap (fun f =>
          if (pass1 cfg docs).1.totalDocs ≤ f.present_count then none
          else
            some (MissingIssue.mk f.field
              ((pass1 cfg docs).1.totalDocs - f.present_count)
              (round4 ((((pass1 cfg docs).1.totalDocs - f.present_count : ℕ)
                : ℚ) / ((pass1 cfg docs).1.totalDocs : ℚ)))
              (if ((getProp
                  (if (expectedFieldsPass1 cfg (pass1 cfg docs).1).length > 0
                   then pass2 cfg (expectedFieldsPass1 cfg
                     (pass1 cfg docs).1) docs
                   else []) f.field).getD []).isEmpty
               then none
               else some ((getProp
                  (if (expectedFieldsPass1 cfg (pass1 cfg docs).1).length > 0
                   then pass2 cfg (expectedFieldsPass1 cfg
                     (pass1 cfg docs).1) docs
                   else []) f.field).getD []))))
          ([] : List FieldRow) = [] from rfl, List.mergeSort_nil]]
    rfl

unseal flattenEntries in
theorem config_not_validated_witness :
    ((1 : ℚ) < cfg9.requiredThreshold ∧ cfg9.sampleLimit = none)
    ∧ ((runLint cfg9 docs5).docs_scanned = docs5.length
      ∧ (runLint cfg9 docs5).summary.expected_fields_count = 0
      ∧ (runLint cfg9 docs5).missing_fields = none) :=
  ⟨⟨by norm_num [cfg9], rfl⟩,
    config_not_validated cfg9 docs5 (by norm_num [cfg9]) rfl⟩

end FirebaseAdminUtils
